import Mathlib

/-!
Verification of the json-render expression/patch engine.

The JavaScript document model (arbitrarily nested mappings, sequences and
scalar leaves) is embedded as the inductive type `Json`.  Numbers are
modelled as integers (every numeral exercised by the repository's tests and
examples is an integer).  The JavaScript distinction between a property that
is absent (`undefined`) and a property whose value is `null` is kept by
returning `Option Json` from lookups.
-/

inductive Json where
  | null : Json
  | bool (b : Bool) : Json
  | num (n : Int) : Json
  | str (s : String) : Json
  | arr (elems : List Json) : Json
  | obj (fields : List (String × Json)) : Json
deriving Repr

namespace Json

mutual
def beqJson : Json → Json → Bool
  | .null, .null => true
  | .bool a, .bool b => a == b
  | .num a, .num b => a == b
  | .str a, .str b => a == b
  | .arr xs, .arr ys => beqJsonList xs ys
  | .obj xs, .obj ys => beqJsonFields xs ys
  | _, _ => false

def beqJsonList : List Json → List Json → Bool
  | [], [] => true
  | x :: xs, y :: ys => beqJson x y && beqJsonList xs ys
  | _, _ => false

def beqJsonFields : List (String × Json) → List (String × Json) → Bool
  | [], [] => true
  | (k, v) :: xs, (l, w) :: ys => k == l && beqJson v w && beqJsonFields xs ys
  | _, _ => false
end

mutual
theorem beqJson_refl : ∀ j : Json, beqJson j j = true
  | .null => rfl
  | .bool b => by simp [beqJson]
  | .num n => by simp [beqJson]
  | .str s => by simp [beqJson]
  | .arr xs => by simp [beqJson, beqJsonList_refl xs]
  | .obj xs => by simp [beqJson, beqJsonFields_refl xs]

theorem beqJsonList_refl : ∀ xs : List Json, beqJsonList xs xs = true
  | [] => rfl
  | x :: xs => by simp [beqJsonList, beqJson_refl x, beqJsonList_refl xs]

theorem beqJsonFields_refl : ∀ xs : List (String × Json), beqJsonFields xs xs = true
  | [] => rfl
  | (k, v) :: xs => by
      simp [beqJsonFields, beqJson_refl v, beqJsonFields_refl xs]
end

mutual
theorem beqJson_eq : ∀ a b : Json, beqJson a b = true → a = b
  | .null, .null, _ => rfl
  | .bool a, .bool b, h => by simpa [beqJson] using congrArg Json.bool (by simpa [beqJson] using h)
  | .num a, .num b, h => by
      have : a = b := by simpa [beqJson] using h
      rw [this]
  | .str a, .str b, h => by
      have : a = b := by simpa [beqJson] using h
      rw [this]
  | .arr xs, .arr ys, h => by
      have : xs = ys := beqJsonList_eq xs ys (by simpa [beqJson] using h)
      rw [this]
  | .obj xs, .obj ys, h => by
      have : xs = ys := beqJsonFields_eq xs ys (by simpa [beqJson] using h)
      rw [this]
  | .null, .bool _, h => by simp [beqJson] at h
  | .null, .num _, h => by simp [beqJson] at h
  | .null, .str _, h => by simp [beqJson] at h
  | .null, .arr _, h => by simp [beqJson] at h
  | .null, .obj _, h => by simp [beqJson] at h
  | .bool _, .null, h => by simp [beqJson] at h
  | .bool _, .num _, h => by simp [beqJson] at h
  | .bool _, .str _, h => by simp [beqJson] at h
  | .bool _, .arr _, h => by simp [beqJson] at h
  | .bool _, .obj _, h => by simp [beqJson] at h
  | .num _, .null, h => by simp [beqJson] at h
  | .num _, .bool _, h => by simp [beqJson] at h
  | .num _, .str _, h => by simp [beqJson] at h
  | .num _, .arr _, h => by simp [beqJson] at h
  | .num _, .obj _, h => by simp [beqJson] at h
  | .str _, .null, h => by simp [beqJson] at h
  | .str _, .bool _, h => by simp [beqJson] at h
  | .str _, .num _, h => by simp [beqJson] at h
  | .str _, .arr _, h => by simp [beqJson] at h
  | .str _, .obj _, h => by simp [beqJson] at h
  | .arr _, .null, h => by simp [beqJson] at h
  | .arr _, .bool _, h => by simp [beqJson] at h
  | .arr _, .num _, h => by simp [beqJson] at h
  | .arr _, .str _, h => by simp [beqJson] at h
  | .arr _, .obj _, h => by simp [beqJson] at h
  | .obj _, .null, h => by simp [beqJson] at h
  | .obj _, .bool _, h => by simp [beqJson] at h
  | .obj _, .num _, h => by simp [beqJson] at h
  | .obj _, .str _, h => by simp [beqJson] at h
  | .obj _, .arr _, h => by simp [beqJson] at h

theorem beqJsonList_eq : ∀ xs ys : List Json, beqJsonList xs ys = true → xs = ys
  | [], [], _ => rfl
  | x :: xs, y :: ys, h => by
      have h' := h
      simp only [beqJsonList, Bool.and_eq_true] at h'
      have h1 := beqJson_eq x y h'.1
      have h2 := beqJsonList_eq xs ys h'.2
      rw [h1, h2]
  | [], _ :: _, h => by simp [beqJsonList] at h
  | _ :: _, [], h => by simp [beqJsonList] at h

theorem beqJsonFields_eq :
    ∀ xs ys : List (String × Json), beqJsonFields xs ys = true → xs = ys
  | [], [], _ => rfl
  | (k, v) :: xs, (l, w) :: ys, h => by
      have h' := h
      simp only [beqJsonFields, Bool.and_eq_true, beq_iff_eq] at h'
      have h1 := beqJson_eq v w h'.1.2
      have h2 := beqJsonFields_eq xs ys h'.2
      rw [h'.1.1, h1, h2]
  | [], _ :: _, h => by simp [beqJsonFields] at h
  | _ :: _, [], h => by simp [beqJsonFields] at h
end

instance : DecidableEq Json := fun a b =>
  if h : beqJson a b = true then
    .isTrue (beqJson_eq a b h)
  else
    .isFalse (fun he => h (he ▸ beqJson_refl a))

end Json

/-- Look up a key in an object's field list (first match, as in the
JavaScript property lookup for the duplicate-free objects this engine
manipulates). -/
def jlookup (k : String) : List (String × Json) → Option Json
  | [] => none
  | (l, v) :: rest => if l = k then some v else jlookup k rest

/-- Field access `o.k` on an arbitrary value: `undefined` unless the value is
an object carrying the key. -/
def getField (j : Json) (k : String) : Option Json :=
  match j with
  | .obj fields => jlookup k fields
  | _ => none

/-!
Deep equality, modelled from the spec (the implementation lives in the core
package, absent from the sources; its contract is spec section 4.2):
structural equality over nested mappings/sequences/scalars, order-sensitive
for sequences, key-membership-only (not order) for mappings.
-/

mutual
/-- Modelled from the spec: deep equality (4.2).  Objects compare by key
membership and pointwise deep equality, sequences positionally. -/
def deepEq : Json → Json → Bool
  | .null, .null => true
  | .bool a, .bool b => a == b
  | .num a, .num b => a == b
  | .str a, .str b => a == b
  | .arr xs, .arr ys => deepEqList xs ys
  | .obj xs, .obj ys => xs.length == ys.length && deepEqFields xs ys
  | _, _ => false

def deepEqList : List Json → List Json → Bool
  | [], [] => true
  | x :: xs, y :: ys => deepEq x y && deepEqList xs ys
  | _, _ => false

def deepEqFields : List (String × Json) → List (String × Json) → Bool
  | [], _ => true
  | (k, v) :: rest, other =>
      (match jlookup k other with
       | some w => deepEq v w
       | none => false) && deepEqFields rest other
end

/-- Deep equality lifted to possibly-`undefined` operands, as produced by
`get` lookups (`deepEqual(undefined, undefined)` holds in JavaScript). -/
def optDeepEq : Option Json → Option Json → Bool
  | none, none => true
  | some a, some b => deepEq a b
  | _, _ => false

/-!
Character-level utilities.  Stream text is embedded as `List Char`; the
JavaScript string methods used by the sources (`trim`, `split`,
`startsWith`) are given explicit recursive models.
-/

/-- The JavaScript whitespace class relevant to `String.prototype.trim` on
the streams this engine sees. -/
def isWsChar (c : Char) : Bool :=
  c = ' ' || c = '\t' || c = '\n' || c = '\r'

/-- Model of `String.prototype.trim`: strip leading and trailing whitespace. -/
def trimChars (cs : List Char) : List Char :=
  ((cs.dropWhile isWsChar).reverse.dropWhile isWsChar).reverse

/-- Split a character list at a separator character; `"a/b" ↦ ["a","b"]`,
`"" ↦ [""]` (the semantics of JavaScript `String.prototype.split`). -/
def splitOnChar (sep : Char) : List Char → List (List Char)
  | [] => [[]]
  | c :: rest =>
      let parts := splitOnChar sep rest
      if c = sep then [] :: parts
      else
        match parts with
        | [] => [[c]]
        | p :: ps => (c :: p) :: ps

/-- Modelled from the spec: RFC 6901 segment decoding, a single left-to-right
pass replacing `~1` with `/` and `~0` with `~`, never re-scanning produced
characters (spec 4.1). -/
def unescapeSeg : List Char → List Char
  | [] => []
  | '~' :: '0' :: rest => '~' :: unescapeSeg rest
  | '~' :: '1' :: rest => '/' :: unescapeSeg rest
  | c :: rest => c :: unescapeSeg rest

/-- RFC 6901 segment encoding (`~` to `~0`, `/` to `~1`), used to state that
decoding matches the intended key. -/
def escapeSeg : List Char → List Char
  | [] => []
  | '~' :: rest => '~' :: '0' :: escapeSeg rest
  | '/' :: rest => '~' :: '1' :: escapeSeg rest
  | c :: rest => c :: escapeSeg rest

/-- Modelled from the spec: pointer parsing for the path-addressing layer
(4.1). Optional leading `/`; empty path or bare `/` denotes the root; each
segment is RFC-6901-unescaped before use as a key. -/
def parsePath (path : String) : List String :=
  match path.data with
  | [] => []
  | c :: rest =>
      let body := if c = '/' then rest else c :: rest
      match body with
      | [] => []
      | _ => (splitOnChar '/' body).map (fun seg => String.mk (unescapeSeg seg))

/-- Value of a list of decimal digit characters. -/
def digitsToNat (cs : List Char) : Nat :=
  cs.foldl (fun acc c => acc * 10 + (c.toNat - 48)) 0

/-- A canonical array index: digits only, no superfluous leading zero (the
only segments that address array elements, both per RFC 6901 and per
JavaScript's array index semantics). -/
def toIndex? (s : String) : Option Nat :=
  match s.data with
  | [] => none
  | c :: rest =>
      if (c :: rest).all Char.isDigit ∧ (c = '0' → rest = []) then
        some (digitsToNat (c :: rest))
      else none

/-!
Path addressing (spec 4.1).  The implementations (`getByPath`, `setByPath`,
`addByPath`, `removeByPath`) live in the core package, which is absent from
the sources; they are modelled from the spec, pinned by the extensive unit
tests in `packages/core/src/types.test.ts`.  In-place mutation of a tree
document is rendered as a functional update.
-/

/-- Modelled from the spec: `get(doc, path)` (4.1).  Traversal through a
non-object/non-array intermediate — or `null` — yields `undefined`. -/
def getSegs : Json → List String → Option Json
  | doc, [] => some doc
  | .obj fields, s :: rest =>
      match jlookup s fields with
      | some v => getSegs v rest
      | none => none
  | .arr xs, s :: rest =>
      match toIndex? s with
      | some i =>
          match xs.get? i with
          | some v => getSegs v rest
          | none => none
      | none => none
  | _, _ :: _ => none

/-- Modelled from the spec: `getByPath` of the core package. -/
def getByPath (doc : Json) (path : String) : Option Json :=
  getSegs doc (parsePath path)

/-- Overwrite-or-append a key in an object's field list, preserving the
insertion order of an already-present key (JavaScript property assignment). -/
def setKey (k : String) (v : Json) : List (String × Json) → List (String × Json)
  | [] => [(k, v)]
  | (l, w) :: rest => if l = k then (l, v) :: rest else (l, w) :: setKey k v rest

/-- Element assignment `xs[i] = v` on an array: in-range indices are
replaced; an index at or beyond the length extends the array (the gap filled
with nulls, matching what JSON serialization shows for a sparse extension). -/
def arrSet (xs : List Json) (i : Nat) (v : Json) : List Json :=
  if i < xs.length then xs.set i v
  else xs ++ List.replicate (i - xs.length) Json.null ++ [v]

/-- A value a `set`/`add` traversal can descend into (`typeof x === "object"
&& x !== null`). -/
def traversable : Json → Bool
  | .obj _ => true
  | .arr _ => true
  | _ => false

/-- The child a mutating traversal continues into: the existing child when it
is traversable, otherwise a freshly created intermediate mapping
("creating intermediate mappings as needed", spec 4.1). -/
def normChild (c : Option Json) : Json :=
  match c with
  | some v => if traversable v then v else Json.obj []
  | none => Json.obj []

/-- Modelled from the spec: the recursive core of `setByPath` (4.1), on
decoded segments. -/
def setSegs : Json → List String → Json → Json
  | doc, [], _ => doc
  | .obj fields, [s], v => .obj (setKey s v fields)
  | .obj fields, s :: s' :: rest, v =>
      .obj (setKey s (setSegs (normChild (jlookup s fields)) (s' :: rest) v) fields)
  | .arr xs, [s], v =>
      match toIndex? s with
      | some i => .arr (arrSet xs i v)
      | none => .arr xs
  | .arr xs, s :: s' :: rest, v =>
      match toIndex? s with
      | some i => .arr (arrSet xs i (setSegs (normChild (xs.get? i)) (s' :: rest) v))
      | none => .arr xs
  | doc, _ :: _, _ => doc

/-- Modelled from the spec: `setByPath(doc, path, value)` — mutating
overwrite semantics, creating intermediate mappings as needed (4.1). -/
def setByPath (doc : Json) (path : String) (v : Json) : Json :=
  setSegs doc (parsePath path) v

/-- Paths along which `setByPath` reaches its target by plain traversal and
assignment: nonempty, every object step uses a key, every array step a
canonical index.  (Outside this set the JavaScript original falls back to
property games on arrays or silently keeps a scalar root, which the tree
model does not represent.) -/
def setOk : Json → List String → Bool
  | _, [] => false
  | .obj fields, s :: rest =>
      rest.isEmpty || setOk (normChild (jlookup s fields)) rest
  | .arr xs, s :: rest =>
      match toIndex? s with
      | some i => rest.isEmpty || setOk (normChild (xs.get? i)) rest
      | none => false
  | _, _ :: _ => false

/-- Delete a key from an object's field list (JavaScript `delete o[k]`). -/
def delKey (k : String) : List (String × Json) → List (String × Json)
  | [] => []
  | (l, w) :: rest => if l = k then rest else (l, w) :: delKey k rest

/-- Modelled from the spec: the recursive core of `removeByPath` (4.1):
object key delete or array splice-at-index; a no-op when the path does not
resolve. -/
def removeSegs : Json → List String → Json
  | doc, [] => doc
  | .obj fields, [s] => .obj (delKey s fields)
  | .obj fields, s :: s' :: rest =>
      (match jlookup s fields with
       | some v => .obj (setKey s (removeSegs v (s' :: rest)) fields)
       | none => .obj fields)
  | .arr xs, [s] =>
      (match toIndex? s with
       | some i => .arr (xs.eraseIdx i)
       | none => .arr xs)
  | .arr xs, s :: s' :: rest =>
      (match toIndex? s with
       | some i =>
           match xs.get? i with
           | some v => .arr (xs.set i (removeSegs v (s' :: rest)))
           | none => .arr xs
       | none => .arr xs)
  | doc, _ :: _ => doc

/-- Modelled from the spec: `removeByPath(doc, path)` (4.1). -/
def removeByPath (doc : Json) (path : String) : Json :=
  removeSegs doc (parsePath path)

/-- Insert into an array at an index (RFC 6902 add-into-array); `i` is
in-range or the append position. -/
def arrInsert (xs : List Json) (i : Nat) (v : Json) : List Json :=
  xs.take i ++ v :: xs.drop i

/-- Modelled from the spec: the recursive core of `addByPath` (4.1): object
key insert/overwrite, array insert-at-index or append via a trailing `-`
segment. -/
def addSegs : Json → List String → Json → Json
  | doc, [], _ => doc
  | .obj fields, [s], v => .obj (setKey s v fields)
  | .obj fields, s :: s' :: rest, v =>
      .obj (setKey s (addSegs (normChild (jlookup s fields)) (s' :: rest) v) fields)
  | .arr xs, [s], v =>
      if s = "-" then .arr (xs ++ [v])
      else
        match toIndex? s with
        | some i => if i ≤ xs.length then .arr (arrInsert xs i v) else .arr (xs ++ [v])
        | none => .arr xs
  | .arr xs, s :: s' :: rest, v =>
      (match toIndex? s with
       | some i => .arr (arrSet xs i (addSegs (normChild (xs.get? i)) (s' :: rest) v))
       | none => .arr xs)
  | doc, _ :: _, _ => doc

/-- Modelled from the spec: `addByPath(doc, path, value)` (4.1, RFC 6902 add). -/
def addByPath (doc : Json) (path : String) (v : Json) : Json :=
  addSegs doc (parsePath path) v

example : getByPath (.obj [("user", .obj [("name", .str "John"), ("scores", .arr [.num 10, .num 20])])]) "/user/name" = some (.str "John") := by decide
example : getByPath (.obj [("user", .obj [("name", .str "John")])]) "user/name" = some (.str "John") := by decide
example : getByPath (.obj [("value", .num 42)]) "/" = some (.obj [("value", .num 42)]) := by decide
example : getByPath (.obj [("value", .str "s")]) "/value/nested" = none := by decide
example : getByPath (.obj [("user", .null)]) "/user/name" = none := by decide
example : setByPath (.obj []) "/a/b/c" (.str "deep") = .obj [("a", .obj [("b", .obj [("c", .str "deep")])])] := by decide
example : setByPath (.obj [("count", .num 5)]) "/count" (.num 10) = .obj [("count", .num 10)] := by decide
example : setByPath (.obj [("items", .obj [])]) "/items/0" (.str "first") = .obj [("items", .obj [("0", .str "first")])] := by decide
example : addByPath (.obj [("arr", .arr [.num 1, .num 2, .num 3])]) "/arr/1" (.num 99) = .obj [("arr", .arr [.num 1, .num 99, .num 2, .num 3])] := by decide
example : addByPath (.obj [("arr", .arr [.num 1, .num 2])]) "/arr/-" (.num 3) = .obj [("arr", .arr [.num 1, .num 2, .num 3])] := by decide
example : removeByPath (.obj [("a", .num 1), ("b", .num 2)]) "/a" = .obj [("b", .num 2)] := by decide
example : removeByPath (.obj [("arr", .arr [.num 1, .num 2, .num 3])]) "/arr/1" = .obj [("arr", .arr [.num 1, .num 3])] := by decide
example : removeByPath (.obj [("a", .num 1)]) "/b/c/d" = .obj [("a", .num 1)] := by decide

/-!
A model of `JSON.parse` on character lists, restricted to the JSON subset the
patch streams use (integer numerals; the common string escapes).  The parser
is a plain recursive-descent function driven by a fuel argument; the fuel
supplied by `jsonParse` is ample for any input.
-/

/-- The `{` character (spelled via its code point). -/
def lbraceChar : Char := Char.ofNat 123

/-- The `}` character (spelled via its code point). -/
def rbraceChar : Char := Char.ofNat 125

/-- Skip JSON whitespace. -/
def skipWs (cs : List Char) : List Char :=
  cs.dropWhile isWsChar

/-- Recognise a literal keyword (`true`, `false`, `null`). -/
def parseLit (lit : List Char) (v : Json) (cs : List Char) : Option (Json × List Char) :=
  if lit.isPrefixOf cs then some (v, cs.drop lit.length) else none

/-- Parse the body of a JSON string after the opening quote. -/
def parseStrBody (fuel : Nat) (cs : List Char) (acc : List Char) : Option (String × List Char) :=
  match fuel with
  | 0 => none
  | fuel + 1 =>
      match cs with
      | [] => none
      | c :: rest =>
          if c = '"' then some (String.mk acc.reverse, rest)
          else if c = '\\' then
            match rest with
            | [] => none
            | e :: rest2 =>
                let dec : Option Char :=
                  if e = '"' then some '"'
                  else if e = '\\' then some '\\'
                  else if e = '/' then some '/'
                  else if e = 'n' then some '\n'
                  else if e = 't' then some '\t'
                  else if e = 'r' then some '\r'
                  else none
                match dec with
                | some d => parseStrBody fuel rest2 (d :: acc)
                | none => none
          else parseStrBody fuel rest (c :: acc)

/-- Parse an integer numeral (optional minus sign; no superfluous leading
zero, per the JSON grammar). -/
def parseNum (cs : List Char) : Option (Json × List Char) :=
  let (neg, body) :=
    match cs with
    | '-' :: rest => (true, rest)
    | _ => (false, cs)
  let digits := body.takeWhile Char.isDigit
  let rest := body.dropWhile Char.isDigit
  match digits with
  | [] => none
  | d :: ds =>
      if d = '0' ∧ ds ≠ [] then none
      else
        let n : Int := Int.ofNat (digitsToNat (d :: ds))
        some (.num (if neg then -n else n), rest)

mutual
/-- Parse one JSON value (after leading whitespace). -/
def parseVal (fuel : Nat) (cs : List Char) : Option (Json × List Char) :=
  match fuel with
  | 0 => none
  | fuel + 1 =>
      match skipWs cs with
      | [] => none
      | c :: rest =>
          if c = '"' then
            match parseStrBody (rest.length + 1) rest [] with
            | some (s, r) => some (.str s, r)
            | none => none
          else if c = 't' then parseLit "true".data (.bool true) (c :: rest)
          else if c = 'f' then parseLit "false".data (.bool false) (c :: rest)
          else if c = 'n' then parseLit "null".data .null (c :: rest)
          else if c = '[' then
            match skipWs rest with
            | c2 :: rest2 =>
                if c2 = ']' then some (.arr [], rest2)
                else parseArrElems fuel (c2 :: rest2) []
            | [] => none
          else if c = lbraceChar then
            match skipWs rest with
            | c2 :: rest2 =>
                if c2 = rbraceChar then some (.obj [], rest2)
                else parseObjFields fuel (c2 :: rest2) []
            | [] => none
          else parseNum (c :: rest)

/-- Parse array elements (at least one), ending at `]`. -/
def parseArrElems (fuel : Nat) (cs : List Char) (acc : List Json) : Option (Json × List Char) :=
  match fuel with
  | 0 => none
  | fuel + 1 =>
      match parseVal fuel cs with
      | none => none
      | some (v, rest) =>
          match skipWs rest with
          | c :: rest2 =>
              if c = ',' then parseArrElems fuel rest2 (v :: acc)
              else if c = ']' then some (.arr (v :: acc).reverse, rest2)
              else none
          | [] => none

/-- Parse object members (at least one), ending at `}`. -/
def parseObjFields (fuel : Nat) (cs : List Char) (acc : List (String × Json)) :
    Option (Json × List Char) :=
  match fuel with
  | 0 => none
  | fuel + 1 =>
      match skipWs cs with
      | c :: rest =>
          if c = '"' then
            match parseStrBody (rest.length + 1) rest [] with
            | none => none
            | some (k, rest2) =>
                match skipWs rest2 with
                | c2 :: rest3 =>
                    if c2 = ':' then
                      match parseVal fuel rest3 with
                      | none => none
                      | some (v, rest4) =>
                          match skipWs rest4 with
                          | c3 :: rest5 =>
                              if c3 = ',' then parseObjFields fuel rest5 ((k, v) :: acc)
                              else if c3 = rbraceChar then
                                some (.obj ((k, v) :: acc).reverse, rest5)
                              else none
                          | [] => none
                    else none
                | [] => none
          else none
      | [] => none
end

/-- Model of `JSON.parse`: parse a full value; trailing content other than
whitespace is a parse error. -/
def jsonParse (cs : List Char) : Option Json :=
  match parseVal (2 * cs.length + 8) cs with
  | some (v, rest) => if skipWs rest = [] then some v else none
  | none => none

example : jsonParse "\x7b\"op\":\"add\",\"path\":\"/name\",\"value\":\"Alice\"\x7d".data =
    some (.obj [("op", .str "add"), ("path", .str "/name"), ("value", .str "Alice")]) := by decide
example : jsonParse "\x7b\"op\":\"add\",\"path\":\"/age\",\"value\":30\x7d".data =
    some (.obj [("op", .str "add"), ("path", .str "/age"), ("value", .num 30)]) := by decide
example : jsonParse "[1,-2,true,null,\"x\"]".data =
    some (.arr [.num 1, .num (-2), .bool true, .null, .str "x"]) := by decide
example : jsonParse "\x7b\"a\":\x7b\"b\":[]\x7d\x7d".data =
    some (.obj [("a", .obj [("b", .arr [])])]) := by decide
example : jsonParse "not json".data = none := by decide
example : jsonParse "\x7b\"op\":".data = none := by decide

/-!
Patch engine (spec 4.2).  `applySpecStreamPatch` lives in the core package,
absent from the sources; it is modelled from the spec and pinned by the unit
tests in `packages/core/src/types.test.ts` (including the exact text of the
test-failure error).  A thrown error is rendered as `Except.error`.  Patches
stay in their duck-typed wire form (`Json` objects) exactly as the
implementations treat them.
-/

/-- The message a failing `test` operation throws (pinned by
`types.test.ts`): it carries the patch's path. -/
def testFailMsg (path : String) : String :=
  "Test operation failed: value at \"" ++ path ++ "\" does not match"

/-- The `path` field of a patch record (empty when absent; no exercised
behaviour depends on a missing path). -/
def patchPath (patch : Json) : String :=
  match getField patch "path" with
  | some (.str p) => p
  | _ => ""

/-- The `from` field of a patch record. -/
def patchFrom (patch : Json) : Option String :=
  match getField patch "from" with
  | some (.str f) => some f
  | _ => none

/-- Modelled from the spec: `applySpecStreamPatch` of the core package
(4.2).  `add`/`replace` upsert via `addByPath`; `remove` is a no-op on an
absent target; `move`/`copy` are no-ops when `from` is absent; `test`
deep-compares and throws (without mutating) on mismatch. -/
def applySpecStreamPatch (doc : Json) (patch : Json) : Except String Json :=
  match getField patch "op" with
  | some (.str "add") | some (.str "replace") =>
      (match getField patch "value" with
       | some v => .ok (addByPath doc (patchPath patch) v)
       | none => .ok doc)
  | some (.str "remove") => .ok (removeByPath doc (patchPath patch))
  | some (.str "move") =>
      (match patchFrom patch with
       | none => .ok doc
       | some f =>
           match getByPath doc f with
           | none => .ok doc
           | some v => .ok (addByPath (removeByPath doc f) (patchPath patch) v))
  | some (.str "copy") =>
      (match patchFrom patch with
       | none => .ok doc
       | some f =>
           match getByPath doc f with
           | none => .ok doc
           | some v => .ok (addByPath doc (patchPath patch) v))
  | some (.str "test") =>
      if optDeepEq (getByPath doc (patchPath patch)) (getField patch "value") then .ok doc
      else .error (testFailMsg (patchPath patch))
  | _ => .ok doc

/-- One of the six RFC 6902 operation names. -/
def isPatchOp (s : String) : Bool :=
  s = "add" || s = "remove" || s = "replace" || s = "move" || s = "copy" || s = "test"

/-- Minimal shape validation of a parsed stream line: its `op` is one of the
six operations (spec section 7, MalformedPatchLine). -/
def patchShape (j : Json) : Bool :=
  match getField j "op" with
  | some (.str s) => isPatchOp s
  | _ => false

/-!
Stream compiler (spec 4.3).  `createSpecStreamCompiler` lives in the core
package, absent from the sources; it is modelled from the spec, pinned by
the unit tests in `types.test.ts`.  The mutable compiler is rendered as
explicit state passing; `push` appends the chunk to the buffer, splits off
the complete lines, retains the trailing incomplete segment, and applies
each complete line in order.  A thrown `test` failure surfaces as
`Except.error` of the whole call.
-/

/-- Model of `buffer.split("\n")` followed by popping the trailing segment:
the complete lines paired with the retained remainder. -/
def splitLines : List Char → List (List Char) × List Char
  | [] => ([], [])
  | c :: rest =>
      let p := splitLines rest
      if c = '\n' then ([] :: p.1, p.2)
      else
        match p.1 with
        | [] => ([], c :: p.2)
        | l :: ls => ((c :: l) :: ls, p.2)

namespace StreamCompiler

/-- The compiler's process state: accumulating document, text buffer, and
ordered log of applied patches (spec 4.3). -/
structure State where
  doc : Json
  buf : List Char
  patchLog : List Json
deriving Repr, DecidableEq

/-- A fresh compiler over an initial document (default: empty mapping). -/
def init (initial : Json := .obj []) : State :=
  ⟨initial, [], []⟩

/-- Process one complete line against the accumulating document and patch
log: blank and `//`-comment lines are ignored, JSON parse failures and
shape-invalid records are silently discarded, and a valid patch is applied
(propagating a `test` failure) and logged. -/
def processLine (dl : Json × List Json) (line : List Char) :
    Except String (Json × List Json) :=
  let t := trimChars line
  if t = [] then .ok dl
  else if ['/', '/'].isPrefixOf t then .ok dl
  else
    match jsonParse t with
    | none => .ok dl
    | some j =>
        if patchShape j then
          match applySpecStreamPatch dl.1 j with
          | .ok d => .ok (d, dl.2 ++ [j])
          | .error e => .error e
        else .ok dl

/-- `push(chunk)`: append to the buffer, process all complete lines in
arrival order, retain the trailing incomplete segment. -/
def push (s : State) (chunk : List Char) : Except String State :=
  let p := splitLines (s.buf ++ chunk)
  (p.1.foldlM processLine (s.doc, s.patchLog)).map fun dl => ⟨dl.1, p.2, dl.2⟩

/-- `getResult()`: flush (parse and apply) whatever still sits in the buffer
— even without a trailing newline — and return the document. -/
def getResult (s : State) : Except String Json :=
  (processLine (s.doc, s.patchLog) s.buf).map (·.1)

/-- `reset()`: document back to the initial value, buffer and log cleared. -/
def reset (_ : State) (initial : Json := .obj []) : State :=
  init initial

/-- One-shot `compileSpecStream(fullText, initial?)`: construct, push the
whole text, return `getResult()` (spec 4.3). -/
def compileSpecStream (fullText : List Char) (initial : Json := .obj []) :
    Except String Json :=
  push (init initial) fullText >>= getResult

end StreamCompiler


instance {e a : Type} [DecidableEq e] [DecidableEq a] : DecidableEq (Except e a) := fun x y =>
  match x, y with
  | .ok v, .ok w => if h : v = w then .isTrue (by rw [h]) else .isFalse (by simp [h])
  | .error v, .error w => if h : v = w then .isTrue (by rw [h]) else .isFalse (by simp [h])
  | .ok _, .error _ => .isFalse (by simp)
  | .error _, .ok _ => .isFalse (by simp)

example : StreamCompiler.compileSpecStream
    "\x7b\"op\":\"add\",\"path\":\"/name\",\"value\":\"Alice\"\x7d\n\x7b\"op\":\"add\",\"path\":\"/age\",\"value\":30\x7d".data
    = .ok (.obj [("name", .str "Alice"), ("age", .num 30)]) := by decide

example : StreamCompiler.compileSpecStream
    "\x7b\"op\":\"add\",\"path\":\"/a\",\"value\":1\x7d\n\n\x7b\"op\":\"add\",\"path\":\"/b\",\"value\":2\x7d".data
    = .ok (.obj [("a", .num 1), ("b", .num 2)]) := by decide

example : StreamCompiler.compileSpecStream
    "\x7b\"op\":\"add\",\"path\":\"/b\",\"value\":2\x7d".data (.obj [("a", .num 1)])
    = .ok (.obj [("a", .num 1), ("b", .num 2)]) := by decide

example : StreamCompiler.compileSpecStream
    "\x7b\"op\":\"add\",\"path\":\"/old\",\"value\":\"data\"\x7d\n\x7b\"op\":\"move\",\"path\":\"/new\",\"from\":\"/old\"\x7d".data
    = .ok (.obj [("new", .str "data")]) := by decide

example : StreamCompiler.compileSpecStream
    "\x7b\"op\":\"add\",\"path\":\"/original\",\"value\":\"data\"\x7d\n\x7b\"op\":\"copy\",\"path\":\"/duplicate\",\"from\":\"/original\"\x7d".data
    = .ok (.obj [("original", .str "data"), ("duplicate", .str "data")]) := by decide

example :
    (StreamCompiler.push (StreamCompiler.init) "\x7b\"op\":\"add\",\"path\":\"/na".data).map
      (fun s => s.patchLog.length) = .ok 0 := by decide

example : applySpecStreamPatch (.obj [("name", .str "Alice")])
    (.obj [("op", .str "test"), ("path", .str "/name"), ("value", .str "Bob")])
    = .error (testFailMsg "/name") := by decide

example : applySpecStreamPatch (.obj [])
    (.obj [("op", .str "test"), ("path", .str "/missing"), ("value", .str "anything")])
    = .error (testFailMsg "/missing") := by decide

example : applySpecStreamPatch (.obj [("user", .obj [("name", .str "Alice"), ("age", .num 30)])])
    (.obj [("op", .str "test"), ("path", .str "/user"),
           ("value", .obj [("age", .num 30), ("name", .str "Alice")])])
    = .ok (.obj [("user", .obj [("name", .str "Alice"), ("age", .num 30)])]) := by decide

/-- Unfolding `splitLines` at a newline. -/
theorem splitLines_cons_nl (rest : List Char) :
    splitLines ('\n' :: rest) = ([] :: (splitLines rest).1, (splitLines rest).2) := by
  simp [splitLines]

/-- Unfolding `splitLines` at a non-newline character. -/
theorem splitLines_cons (c : Char) (rest : List Char) (hc : c ≠ '\n') :
    splitLines (c :: rest) =
      (match (splitLines rest).1 with
       | [] => ([], c :: (splitLines rest).2)
       | l :: ls => ((c :: l) :: ls, (splitLines rest).2)) := by
  simp only [splitLines, if_neg hc]

/-- Complete lines of a concatenation: the lines of the first part, then the
lines obtained once its retained remainder is completed by the second part. -/
theorem splitLines_append (x y : List Char) :
    splitLines (x ++ y) =
      ((splitLines x).1 ++ (splitLines ((splitLines x).2 ++ y)).1,
       (splitLines ((splitLines x).2 ++ y)).2) := by
  induction x with
  | nil => simp [splitLines]
  | cons c x' ih =>
      by_cases hc : c = '\n'
      · subst hc
        rw [List.cons_append, splitLines_cons_nl, splitLines_cons_nl, ih]
        simp
      · rw [List.cons_append, splitLines_cons c _ hc, splitLines_cons c _ hc, ih]
        cases h : (splitLines x').1 with
        | cons l ls => simp [h]
        | nil =>
            simp only [h, List.nil_append]
            rw [List.cons_append, splitLines_cons c _ hc]

/-- Pushing two chunks in order is the same as pushing their concatenation:
the compiler is insensitive to where the stream is cut, even mid-line. -/
theorem push_append (s : StreamCompiler.State) (a b : List Char) :
    StreamCompiler.push s a >>= (fun s1 => StreamCompiler.push s1 b) =
      StreamCompiler.push s (a ++ b) := by
  simp only [StreamCompiler.push]
  rw [← List.append_assoc, splitLines_append (s.buf ++ a) b, List.foldlM_append]
  cases h :
      (splitLines (s.buf ++ a)).1.foldlM StreamCompiler.processLine (s.doc, s.patchLog) with
  | error e => simp [h, Except.map, Bind.bind, Except.bind]
  | ok dl => simp [h, Except.map, Bind.bind, Except.bind]

/-!
The Vue streaming hooks (`hooks.ts`): `parseLine`, the spec-aware patch
routing (`setSpecValue` / `removeSpecValue` / `getSpecValue` / `applyPatch`)
and the `useUIStream` line loop, translated from the source.  This layer is
value-level: the shallow object copies of the original are rendered as the
identity on values, and `setByPath`'s in-place mutation as a functional
update — adequate wherever no aliasing is observed (a separate heap model
below captures the aliasing behaviour of the copy-mutate-replace step).
-/

/-- JavaScript truthiness of a JSON value. -/
def jsTruthy : Json → Bool
  | .null => false
  | .bool b => b
  | .num n => n ≠ 0
  | .str s => s ≠ ""
  | .arr _ => true
  | .obj _ => true

/-- Model of `s.slice(n)`. -/
def jsSlice (s : String) (n : Nat) : String :=
  String.mk (s.data.drop n)

/-- Model of `s.startsWith(pre)`. -/
def jsStartsWith (s pre : String) : Bool :=
  pre.data.isPrefixOf s.data

/-- Model of `s.split("/")`. -/
def jsSplitSlash (s : String) : List String :=
  (splitOnChar '/' s.data).map String.mk

/-- The value contributed by an object spread `{...v}`: objects keep their
fields, arrays spread to index-keyed fields, primitives contribute nothing. -/
def spreadToObj : Json → Json
  | .obj fields => .obj fields
  | .arr xs => .obj ((List.range xs.length).zip xs |>.map fun p => (toString p.1, p.2))
  | _ => .obj []

/-- Token usage metadata parsed from a `__meta: "usage"` line (`hooks.ts`).
The fields keep their wire values (`?? 0` substitutes only for a missing or
null field). -/
structure TokenUsage where
  promptTokens : Json
  completionTokens : Json
  totalTokens : Json
deriving Repr, DecidableEq

/-- `parsed.promptTokens ?? 0` and friends. -/
def numFieldOrZero (j : Json) (k : String) : Json :=
  match getField j k with
  | none => .num 0
  | some .null => .num 0
  | some v => v

/-- Parse result for a single line — either a patch or usage metadata
(`ParsedLine` in `hooks.ts`; the JavaScript `null` outcome is `none`). -/
inductive ParsedLine where
  | patch (patch : Json)
  | usage (usage : TokenUsage)
deriving Repr, DecidableEq

/-- `parseLine` from `hooks.ts`: trim; drop blank and `//` lines; JSON-parse
(failure swallowed to `null` by the surrounding `try`); route `__meta:
"usage"` records as metadata; everything else is returned as a patch. -/
def parseLine (line : List Char) : Option ParsedLine :=
  let trimmed := trimChars line
  if trimmed = [] then none
  else if ['/', '/'].isPrefixOf trimmed then none
  else
    match jsonParse trimmed with
    | none => none
    | some parsed =>
        if getField parsed "__meta" = some (.str "usage") then
          some (.usage
            ⟨numFieldOrZero parsed "promptTokens",
             numFieldOrZero parsed "completionTokens",
             numFieldOrZero parsed "totalTokens"⟩)
        else some (.patch parsed)

/-- The `Spec` document streamed by the hooks: a root key, a flat element
map, and an optional state sub-document.  `root` stays a `Json` value since
the source writes `patch.value` into it unchecked. -/
structure Spec where
  root : Json
  elements : List (String × Json)
  state : Option Json
deriving Repr, DecidableEq

/-- The `Spec` viewed as the plain JavaScript record `{root, elements,
state?}` (used by `getSpecValue`'s generic fallback). -/
def specAsJson (sp : Spec) : Json :=
  .obj ([("root", sp.root), ("elements", .obj sp.elements)] ++
    (match sp.state with
     | some st => [("state", st)]
     | none => []))

/-- `setSpecValue` from `hooks.ts`: route `/root`, `/state`,
`/state/<subpath>`, `/elements/<key>` and `/elements/<key>/<subpath...>`;
any other path is silently dropped.  The depth-two-or-more element update is
the value-level rendering of `{...element}` followed by an in-place
`setByPath` on the copy. -/
def setSpecValue (newSpec : Spec) (path : String) (value : Json) : Spec :=
  if path = "/root" then { newSpec with root := value }
  else if path = "/state" then { newSpec with state := some value }
  else if jsStartsWith path "/state/" then
    let st :=
      match newSpec.state with
      | some s => if jsTruthy s then s else Json.obj []
      | none => Json.obj []
    { newSpec with state := some (setByPath st (jsSlice path 6) value) }
  else if jsStartsWith path "/elements/" then
    match jsSplitSlash (jsSlice path 10) with
    | [] => newSpec
    | elementKey :: restParts =>
        if elementKey = "" then newSpec
        else if restParts = [] then
          { newSpec with elements := setKey elementKey value newSpec.elements }
        else
          match jlookup elementKey newSpec.elements with
          | some element =>
              if jsTruthy element then
                let propPath := "/" ++ String.intercalate "/" restParts
                { newSpec with
                    elements := setKey elementKey (setByPath element propPath value)
                      newSpec.elements }
              else newSpec
          | none => newSpec
  else newSpec

/-- `removeSpecValue` from `hooks.ts`. -/
def removeSpecValue (newSpec : Spec) (path : String) : Spec :=
  if path = "/state" then { newSpec with state := none }
  else if jsStartsWith path "/state/" then
    match newSpec.state with
    | some st =>
        if jsTruthy st then
          { newSpec with state := some (removeByPath st (jsSlice path 6)) }
        else newSpec
    | none => newSpec
  else if jsStartsWith path "/elements/" then
    match jsSplitSlash (jsSlice path 10) with
    | [] => newSpec
    | elementKey :: restParts =>
        if elementKey = "" then newSpec
        else if restParts = [] then
          { newSpec with elements := delKey elementKey newSpec.elements }
        else
          match jlookup elementKey newSpec.elements with
          | some element =>
              if jsTruthy element then
                let propPath := "/" ++ String.intercalate "/" restParts
                { newSpec with
                    elements := setKey elementKey (removeByPath element propPath)
                      newSpec.elements }
              else newSpec
          | none => newSpec
  else newSpec

/-- `getSpecValue` from `hooks.ts`. -/
def getSpecValue (spec : Spec) (path : String) : Option Json :=
  if path = "/root" then some spec.root
  else if path = "/state" then spec.state
  else if jsStartsWith path "/state/" then
    match spec.state with
    | some st =>
        if jsTruthy st then getByPath st (jsSlice path 6)
        else getByPath (specAsJson spec) path
    | none => getByPath (specAsJson spec) path
  else getByPath (specAsJson spec) path

/-- `applyPatch` from `hooks.ts`: shallow-copy the spec (value-level: keep
the values; a falsy `state` survives via `...spec`, a truthy one is spread),
then switch on `patch.op`.  `test` is deliberately a no-op there ("test is a
no-op for rendering purposes (validation only)").  A `move`/`copy` whose
source resolves to `undefined` writes an `undefined` property in JavaScript;
the tree model renders that as skipping the write, which no exercised
behaviour distinguishes. -/
def applyPatch (spec : Spec) (patch : Json) : Spec :=
  let newSpec : Spec :=
    { spec with
        state :=
          match spec.state with
          | some st => if jsTruthy st then some (spreadToObj st) else some st
          | none => none }
  match getField patch "op" with
  | some (.str "add") | some (.str "replace") =>
      (match getField patch "value" with
       | some v => setSpecValue newSpec (patchPath patch) v
       | none => setSpecValue newSpec (patchPath patch) .null)
  | some (.str "remove") => removeSpecValue newSpec (patchPath patch)
  | some (.str "move") =>
      (match patchFrom patch with
       | none => newSpec
       | some f =>
           if f = "" then newSpec
           else
             match getSpecValue newSpec f with
             | some v => setSpecValue (removeSpecValue newSpec f) (patchPath patch) v
             | none => removeSpecValue newSpec f)
  | some (.str "copy") =>
      (match patchFrom patch with
       | none => newSpec
       | some f =>
           if f = "" then newSpec
           else
             match getSpecValue newSpec f with
             | some v => setSpecValue newSpec (patchPath patch) v
             | none => newSpec)
  | some (.str "test") => newSpec
  | _ => newSpec

/-- Accumulated state of the `useUIStream` line loop: current spec, latest
usage record, and the raw patch lines retained for inspection. -/
structure StreamAcc where
  spec : Spec
  usage : Option TokenUsage
  rawLines : List (List Char)
deriving Repr, DecidableEq

/-- One iteration of the `useUIStream` per-line loop (`hooks.ts`): skip
blank lines, drop unparseable ones, route usage metadata, apply patches. -/
def processStreamLine (acc : StreamAcc) (line : List Char) : StreamAcc :=
  let trimmed := trimChars line
  if trimmed = [] then acc
  else
    match parseLine trimmed with
    | none => acc
    | some (.usage u) => { acc with usage := some u }
    | some (.patch p) =>
        { acc with
            rawLines := acc.rawLines ++ [trimmed],
            spec := applyPatch acc.spec p }

/-- The `useUIStream` loop over a batch of complete lines. -/
def processStreamLines (acc : StreamAcc) (lines : List (List Char)) : StreamAcc :=
  lines.foldl processStreamLine acc

example :
    applyPatch ⟨.str "", [], none⟩
      (.obj [("op", .str "add"), ("path", .str "/root"), ("value", .str "main")])
    = ⟨.str "main", [], none⟩ := by decide

example :
    applyPatch ⟨.str "", [], none⟩
      (.obj [("op", .str "add"), ("path", .str "/elements/card1"),
             ("value", .obj [("type", .str "Card")])])
    = ⟨.str "", [("card1", .obj [("type", .str "Card")])], none⟩ := by decide

example :
    applyPatch ⟨.str "", [("card1", .obj [("type", .str "Card"), ("props", .obj [("title", .str "Old")])])], none⟩
      (.obj [("op", .str "replace"), ("path", .str "/elements/card1/props/title"),
             ("value", .str "New")])
    = ⟨.str "", [("card1", .obj [("type", .str "Card"), ("props", .obj [("title", .str "New")])])], none⟩ := by decide

example : parseLine "// a comment".data = none := by decide
example : parseLine "   ".data = none := by decide
example : parseLine "nonsense".data = none := by decide
example : parseLine "\x7b\"__meta\":\"usage\",\"promptTokens\":7,\"totalTokens\":9\x7d".data
    = some (.usage ⟨.num 7, .num 0, .num 9⟩) := by decide

/-- A `test` patch record in wire form. -/
def mkTestPatch (path : String) (v : Json) : Json :=
  .obj [("op", .str "test"), ("path", .str path), ("value", v)]

/-- A spec whose optional state is absent or a mapping (every spec the
streaming hook builds has this shape). -/
def stateObjLike (sp : Spec) : Bool :=
  match sp.state with
  | none => true
  | some (.obj _) => true
  | some _ => false

/-- A concrete spec with `state.name = "Alice"`, used to exhibit the fate of
a mismatching `test` patch in the hook's patch application. -/
def testSpecA : Spec :=
  ⟨.str "r", [("e1", .obj [("type", .str "Text")])], some (.obj [("name", .str "Alice")])⟩

/-- C1, counterexample.  The claim asserts that for every patch application
a mismatching `test` fails with an error raised to the immediate caller.
In `applyPatch` of the streaming hook (`hooks.ts`), patch application of a
`test` whose comparison would fail returns the spec unchanged: the function
admits no thrown outcome at all (`test` is its silent no-op branch), so the
mismatch is swallowed rather than propagated. -/
theorem C1_counterexample :
    optDeepEq (getSpecValue testSpecA "/state/name") (some (.str "Bob")) = false ∧
      applyPatch testSpecA (mkTestPatch "/state/name" (.str "Bob")) = testSpecA := by
  decide

/-- C1, amended.  In the core patch engine (`applySpecStreamPatch`,
modelled from the spec and its unit tests): a `test` compares
`get(doc, path)` against `patch.value` by deep equality; a match leaves the
document untouched; a mismatch fails with an error carrying the path,
propagated to the immediate caller, and the Stream Compiler's `push`
surfaces it as a thrown outcome for that call.  In the streaming hook's
spec-aware `applyPatch`, by contrast, `test` is a deliberate no-op: it
never mutates the spec and never raises, whether the comparison would pass
or fail. -/
theorem C1_test_semantics :
    (∀ (doc : Json) (path : String) (v : Json),
        optDeepEq (getByPath doc path) (some v) = true →
          applySpecStreamPatch doc (mkTestPatch path v) = .ok doc) ∧
    (∀ (doc : Json) (path : String) (v : Json),
        optDeepEq (getByPath doc path) (some v) = false →
          applySpecStreamPatch doc (mkTestPatch path v) = .error (testFailMsg path)) ∧
    (∀ (sp : Spec) (patch : Json),
        getField patch "op" = some (.str "test") → stateObjLike sp = true →
          applyPatch sp patch = sp) ∧
    StreamCompiler.push (StreamCompiler.init (.obj [("name", .str "Alice")]))
        "\x7b\"op\":\"test\",\"path\":\"/name\",\"value\":\"Bob\"\x7d\n".data
      = .error (testFailMsg "/name") := by
  refine ⟨?_, ?_, ?_, by decide⟩
  · intro doc path v h
    simp [applySpecStreamPatch, mkTestPatch, getField, jlookup, patchPath, h]
  · intro doc path v h
    simp [applySpecStreamPatch, mkTestPatch, getField, jlookup, patchPath, h]
  · intro sp patch hop hst
    obtain ⟨r, els, st⟩ := sp
    cases st with
    | none => simp [applyPatch, hop]
    | some stv =>
        cases stv with
        | obj fields => simp [applyPatch, hop, spreadToObj, jsTruthy]
        | null => simp [stateObjLike] at hst
        | bool b => simp [stateObjLike] at hst
        | num n => simp [stateObjLike] at hst
        | str s => simp [stateObjLike] at hst
        | arr xs => simp [stateObjLike] at hst

/-- C1, witness: the amended theorem applied at concrete inputs. -/
theorem C1_test_semantics_witness :
    applySpecStreamPatch (.obj [("name", .str "Alice")]) (mkTestPatch "/name" (.str "Alice"))
        = .ok (.obj [("name", .str "Alice")]) ∧
    applySpecStreamPatch (.obj [("name", .str "Alice")]) (mkTestPatch "/name" (.str "Bob"))
        = .error (testFailMsg "/name") ∧
    applyPatch testSpecA (mkTestPatch "/state/name" (.str "Alice")) = testSpecA :=
  ⟨C1_test_semantics.1 _ "/name" _ (by decide),
   C1_test_semantics.2.1 _ "/name" _ (by decide),
   C1_test_semantics.2.2.1 testSpecA _ (by decide) (by decide)⟩

/-- C2.  Splitting a patch stream anywhere — even mid-line — is invisible:
pushing two chunks in order and then taking `getResult()` produces exactly
the outcome of pushing the concatenated text in a single push (for every
starting compiler state, hence in particular for a fresh compiler on every
well-formed stream).  Moreover `getResult()` flushes and applies content
still sitting in the buffer without a trailing newline: a pushed patch line
lacking its newline is still reflected in the result. -/
theorem C2_chunk_split_invariance :
    (∀ (s : StreamCompiler.State) (a b : List Char),
        (StreamCompiler.push s a >>= fun s1 =>
          StreamCompiler.push s1 b >>= fun s2 => StreamCompiler.getResult s2) =
        (StreamCompiler.push s (a ++ b) >>= StreamCompiler.getResult)) ∧
    (StreamCompiler.push StreamCompiler.init
        "\x7b\"op\":\"add\",\"path\":\"/name\",\"value\":\"Alice\"\x7d".data >>=
      StreamCompiler.getResult) = .ok (.obj [("name", .str "Alice")]) := by
  refine ⟨?_, by decide⟩
  intro s a b
  rw [← bind_assoc, push_append]

example :
    (StreamCompiler.push StreamCompiler.init "\x7b\"op\":\"add\",\"path\":\"/na".data >>= fun s1 =>
      StreamCompiler.push s1 "me\",\"value\":\"Alice\"\x7d\n".data >>= fun s2 =>
        StreamCompiler.getResult s2) = .ok (.obj [("name", .str "Alice")]) := by decide

/-- Paths matching none of the routing branches leave `setSpecValue`
untouched. -/
theorem setSpecValue_unrouted (sp : Spec) (p : String) (v : Json)
    (h1 : p ≠ "/root") (h2 : p ≠ "/state")
    (h3 : jsStartsWith p "/state/" = false)
    (h4 : jsStartsWith p "/elements/" = false) :
    setSpecValue sp p v = sp := by
  simp [setSpecValue, h1, h2, h3, h4]

/-- Paths matching none of the routing branches leave `removeSpecValue`
untouched. -/
theorem removeSpecValue_unrouted (sp : Spec) (p : String)
    (h2 : p ≠ "/state")
    (h3 : jsStartsWith p "/state/" = false)
    (h4 : jsStartsWith p "/elements/" = false) :
    removeSpecValue sp p = sp := by
  simp [removeSpecValue, h2, h3, h4]

/-- The opening shallow copy of `applyPatch` preserves a spec whose state is
absent or a mapping. -/
theorem applyPatch_copy (sp : Spec) (h : stateObjLike sp = true) :
    ({ sp with
        state :=
          match sp.state with
          | some st => if jsTruthy st then some (spreadToObj st) else some st
          | none => none } : Spec) = sp := by
  obtain ⟨r, els, st⟩ := sp
  cases st with
  | none => rfl
  | some s => cases s <;> simp_all [stateObjLike, jsTruthy, spreadToObj]

/-- C10.  In the streaming hook's spec-aware patch application, an `add` or
`replace` whose path is not `/root`, not `/state`, not under `/state/` and
not under `/elements/` leaves the spec structurally equal to the input — the
value is silently dropped and no field is created; likewise a `remove` at
such a path leaves the spec unchanged.  (States built by the hook are
mappings; the `stateObjLike` hypothesis records that shape.) -/
theorem C10_unrouted_paths_dropped :
    ∀ (sp : Spec) (patch : Json),
      stateObjLike sp = true →
      (getField patch "op" = some (.str "add") ∨
       getField patch "op" = some (.str "replace") ∨
       getField patch "op" = some (.str "remove")) →
      patchPath patch ≠ "/root" → patchPath patch ≠ "/state" →
      jsStartsWith (patchPath patch) "/state/" = false →
      jsStartsWith (patchPath patch) "/elements/" = false →
      applyPatch sp patch = sp := by
  intro sp patch hst hop h1 h2 h3 h4
  have hcopy := applyPatch_copy sp hst
  have hset : ∀ v, setSpecValue sp (patchPath patch) v = sp :=
    fun v => setSpecValue_unrouted sp _ v h1 h2 h3 h4
  have hrem : removeSpecValue sp (patchPath patch) = sp :=
    removeSpecValue_unrouted sp _ h2 h3 h4
  rcases hop with hop | hop | hop
  · cases hv : getField patch "value" with
    | some v => simp [applyPatch, hop, hv, hcopy, hset]
    | none => simp [applyPatch, hop, hv, hcopy, hset]
  · cases hv : getField patch "value" with
    | some v => simp [applyPatch, hop, hv, hcopy, hset]
    | none => simp [applyPatch, hop, hv, hcopy, hset]
  · simp [applyPatch, hop, hcopy, hrem]

/-- C10, witness: the theorem applied at a concrete spec and patches whose
path `/foo/bar` matches no routing branch. -/
theorem C10_unrouted_paths_dropped_witness :
    applyPatch testSpecA
        (.obj [("op", .str "add"), ("path", .str "/foo/bar"), ("value", .num 1)]) = testSpecA ∧
    applyPatch testSpecA
        (.obj [("op", .str "remove"), ("path", .str "/foo/bar")]) = testSpecA :=
  ⟨C10_unrouted_paths_dropped testSpecA _ (by decide) (.inl (by decide))
      (by decide) (by decide) (by decide) (by decide),
   C10_unrouted_paths_dropped testSpecA _ (by decide) (.inr (.inr (by decide)))
      (by decide) (by decide) (by decide) (by decide)⟩

/-- A prefix of a list whose front is already clean of `q` is itself clean. -/
theorem dropWhile_eq_self_of_prefix (q : Char → Bool) (l : List Char)
    (h : l.dropWhile q = l) (zs : List Char) (hp : zs <+: l) :
    zs.dropWhile q = zs := by
  cases zs with
  | nil => rfl
  | cons c rest =>
      cases l with
      | nil => simp at hp
      | cons d drest =>
          have hcd : c = d := by
            obtain ⟨t, ht⟩ := hp
            simp [List.cons_append] at ht
            exact ht.1
          subst hcd
          by_cases hqc : q c
          · rw [List.dropWhile_cons, if_pos hqc] at h
            have hsuf := List.dropWhile_suffix (l := drest) q
            have hlen := List.IsSuffix.length_le hsuf
            rw [h] at hlen
            simp at hlen
          · rw [List.dropWhile_cons, if_neg hqc]

/-- Trimming is idempotent. -/
theorem trimChars_idem (cs : List Char) : trimChars (trimChars cs) = trimChars cs := by
  set q := isWsChar with hq
  set ys := cs.dropWhile q with hys
  have hclean : ys.dropWhile q = ys := by
    rw [hys]
    exact List.dropWhile_idempotent q cs
  set T := (ys.reverse.dropWhile q).reverse with hT
  have hTpre : T <+: ys := by
    have hsuf : T.reverse <:+ ys.reverse := by
      rw [hT, List.reverse_reverse]
      exact List.dropWhile_suffix q
    exact (List.reverse_suffix).mp hsuf
  have hfront : T.dropWhile q = T :=
    dropWhile_eq_self_of_prefix q ys hclean T hTpre
  have hback : T.reverse.dropWhile q = T.reverse := by
    rw [hT, List.reverse_reverse]
    exact List.dropWhile_idempotent q ys.reverse
  show ((T.dropWhile q).reverse.dropWhile q).reverse = T
  rw [hfront, hback, List.reverse_reverse]

/-- A parsed line whose `op` is not one of the six RFC 6902 operations falls
through `applyPatch`'s switch: the spec comes back unchanged. -/
theorem applyPatch_invalid_op (sp : Spec) (j : Json)
    (hshape : patchShape j = false) (hst : stateObjLike sp = true) :
    applyPatch sp j = sp := by
  have hcopy := applyPatch_copy sp hst
  cases hop : getField j "op" with
  | none => simp [applyPatch, hop, hcopy]
  | some v =>
      cases v with
      | str s =>
          have hs : isPatchOp s = false := by simpa [patchShape, hop] using hshape
          simp only [isPatchOp, Bool.or_eq_false_iff, decide_eq_false_iff_not] at hs
          simp only [applyPatch, hop]
          split
          · simp_all
          · simp_all
          · simp_all
          · simp_all
          · simp_all
          · simp_all
          · exact hcopy
      | null => simp [applyPatch, hop, hcopy]
      | bool b => simp [applyPatch, hop, hcopy]
      | num n => simp [applyPatch, hop, hcopy]
      | arr xs => simp [applyPatch, hop, hcopy]
      | obj fs => simp [applyPatch, hop, hcopy]

/-- The empty text is not JSON. -/
theorem jsonParse_nil : jsonParse [] = none := by decide

/-- Text starting with a slash is not JSON (so `//` comment lines can never
reach the patch branch). -/
theorem jsonParse_slash (cs : List Char) : jsonParse ('/' :: cs) = none := by
  have hfuel : 2 * (('/' :: cs).length) + 8 = (2 * cs.length + 9) + 1 := by
    simp [List.length_cons]
    omega
  unfold jsonParse
  rw [hfuel]
  have hnw : skipWs ('/' :: cs) = '/' :: cs := by
    simp [skipWs, List.dropWhile_cons, isWsChar]
  simp only [parseVal, hnw]
  rw [if_neg (by decide), if_neg (by decide), if_neg (by decide), if_neg (by decide),
    if_neg (by decide), if_neg (by decide)]
  have htake : ('/' :: cs).takeWhile Char.isDigit = [] := by
    rw [List.takeWhile_cons]
    simp
  simp only [parseNum]
  split
  · rename_i heq
    have hm : (match '/' :: cs with
        | '-' :: rest => (true, rest)
        | x => (false, '/' :: cs)) = (false, '/' :: cs) := rfl
    rw [hm, htake] at heq
    simp at heq
  · rfl

/-- The empty line parses to nothing. -/
theorem parseLine_nil : parseLine [] = none := by decide

/-- C4.  Line hygiene of the stream consumer: a line that is blank or whose
trimmed text begins with `//` is ignored by `parseLine`; any line `parseLine`
rejects (including JSON parse failures on non-blank, non-comment text)
leaves the loop accumulator untouched; a parsed line whose `op` is not one
of the six RFC 6902 operations leaves the document unchanged; the loop keeps
processing subsequent lines after any line; and a JSON line carrying
`__meta: "usage"` is routed as usage metadata — it updates the usage record
and is neither applied as a patch nor retained as a raw patch line. -/
theorem C4_malformed_line_policy :
    (∀ line : List Char, trimChars line = [] → parseLine line = none) ∧
    (∀ line : List Char, ['/', '/'].isPrefixOf (trimChars line) → parseLine line = none) ∧
    (∀ line : List Char, trimChars line ≠ [] →
        ¬ (['/', '/'].isPrefixOf (trimChars line)) →
        jsonParse (trimChars line) = none → parseLine line = none) ∧
    (∀ (acc : StreamAcc) (line : List Char),
        parseLine (trimChars line) = none → processStreamLine acc line = acc) ∧
    (∀ (acc : StreamAcc) (line : List Char) (j : Json),
        parseLine (trimChars line) = some (.patch j) → patchShape j = false →
        stateObjLike acc.spec = true →
        (processStreamLine acc line).spec = acc.spec) ∧
    (∀ (acc : StreamAcc) (line : List Char) (rest : List (List Char)),
        processStreamLines acc (line :: rest) =
          processStreamLines (processStreamLine acc line) rest) ∧
    (∀ (line : List Char) (j : Json),
        jsonParse (trimChars line) = some j →
        getField j "__meta" = some (.str "usage") →
        parseLine line = some (.usage
          ⟨numFieldOrZero j "promptTokens", numFieldOrZero j "completionTokens",
           numFieldOrZero j "totalTokens"⟩)) ∧
    (∀ (acc : StreamAcc) (line : List Char) (u : TokenUsage),
        parseLine (trimChars line) = some (.usage u) →
        (processStreamLine acc line).spec = acc.spec ∧
        (processStreamLine acc line).usage = some u ∧
        (processStreamLine acc line).rawLines = acc.rawLines) := by
  refine ⟨?_, ?_, ?_, ?_, ?_, ?_, ?_, ?_⟩
  · intro line h
    simp [parseLine, h]
  · intro line h
    by_cases he : trimChars line = []
    · simp [parseLine, he]
    · have hp : jsonParse (trimChars line) = none := by
        obtain ⟨t, ht⟩ := List.isPrefixOf_iff_prefix.mp h
        rw [← ht]
        rw [show (['/', '/'] ++ t : List Char) = '/' :: '/' :: t from rfl]
        exact jsonParse_slash ('/' :: t)
      simp [parseLine, he, h, hp]
  · intro line h1 h2 h3
    simp [parseLine, h1, h2, h3]
  · intro acc line h
    by_cases he : trimChars line = []
    · simp [processStreamLine, he]
    · simp [processStreamLine, he, h]
  · intro acc line j hparse hshape hst
    by_cases he : trimChars line = []
    · rw [he, parseLine_nil] at hparse
      exact absurd hparse (by simp)
    · simp [processStreamLine, he, hparse, applyPatch_invalid_op acc.spec j hshape hst]
  · intro acc line rest
    simp [processStreamLines, List.foldl]
  · intro line j hjson hmeta
    have he : trimChars line ≠ [] := by
      intro h
      rw [h, jsonParse_nil] at hjson
      exact absurd hjson (by simp)
    have hc : ¬ (['/', '/'].isPrefixOf (trimChars line)) := by
      intro h
      obtain ⟨t, ht⟩ := List.isPrefixOf_iff_prefix.mp h
      rw [← ht] at hjson
      rw [show (['/', '/'] ++ t : List Char) = '/' :: '/' :: t from rfl,
        jsonParse_slash ('/' :: t)] at hjson
      exact absurd hjson (by simp)
    simp [parseLine, he, hc, hjson, hmeta]
  · intro acc line u hparse
    have he : trimChars line ≠ [] := by
      intro h
      rw [h, parseLine_nil] at hparse
      exact absurd hparse (by simp)
    simp [processStreamLine, he, hparse]

/-- C4, witness: the theorem applied at concrete lines — a comment line, a
malformed line, a parsed line with an invalid op, and a usage record. -/
theorem C4_malformed_line_policy_witness :
    parseLine "// chatter".data = none ∧
    parseLine "\x7b\"oops\"".data = none ∧
    (processStreamLine ⟨testSpecA, none, []⟩
        "\x7b\"op\":\"frobnicate\",\"path\":\"/root\",\"value\":1\x7d".data).spec = testSpecA ∧
    parseLine "\x7b\"__meta\":\"usage\",\"promptTokens\":7,\"completionTokens\":2,\"totalTokens\":9\x7d".data
      = some (.usage ⟨.num 7, .num 2, .num 9⟩) :=
  ⟨C4_malformed_line_policy.2.1 _ (by decide),
   C4_malformed_line_policy.2.2.1 _ (by decide) (by decide) (by decide),
   C4_malformed_line_policy.2.2.2.2.1 ⟨testSpecA, none, []⟩ _
     (.obj [("op", .str "frobnicate"), ("path", .str "/root"), ("value", .num 1)])
     (by decide) (by decide) (by decide),
   C4_malformed_line_policy.2.2.2.2.2.2.1 _
     (.obj [("__meta", .str "usage"), ("promptTokens", .num 7),
            ("completionTokens", .num 2), ("totalTokens", .num 9)])
     (by decide) (by decide)⟩

/-- Assigning a key makes it readable. -/
theorem jlookup_setKey (k : String) (v : Json) (fs : List (String × Json)) :
    jlookup k (setKey k v fs) = some v := by
  induction fs with
  | nil => simp [setKey, jlookup]
  | cons p rest ih =>
      obtain ⟨l, w⟩ := p
      by_cases h : l = k
      · simp [setKey, jlookup, h]
      · simp [setKey, jlookup, h, ih]

/-- Element assignment makes the index readable. -/
theorem arrGet_arrSet (xs : List Json) (i : Nat) (v : Json) :
    (arrSet xs i v)[i]? = some v := by
  unfold arrSet
  by_cases h : i < xs.length
  · simp only [if_pos h]
    exact List.getElem?_set_eq_of_lt v h
  · simp only [if_neg h]
    push_neg at h
    have hlen : (xs ++ List.replicate (i - xs.length) Json.null).length = i := by
      simp
      omega
    rw [List.getElem?_append_right (by omega), hlen]
    simp

/-- Round-trip of the path-addressing layer on decoded segments: after a
compatible `set`, the same segments read the stored value back. -/
theorem getSegs_setSegs : ∀ (segs : List String) (d : Json) (v : Json),
    setOk d segs = true → getSegs (setSegs d segs v) segs = some v := by
  intro segs
  induction segs with
  | nil => intro d v h; simp [setOk] at h
  | cons s rest ih =>
      intro d v h
      cases d with
      | obj fields =>
          cases rest with
          | nil => simp [setSegs, getSegs, jlookup_setKey]
          | cons s' rest' =>
              have hok : setOk (normChild (jlookup s fields)) (s' :: rest') = true := by
                simpa [setOk] using h
              simp only [setSegs, getSegs, jlookup_setKey]
              exact ih _ v hok
      | arr xs =>
          cases hti : toIndex? s with
          | none => simp [setOk, hti] at h
          | some i =>
              cases rest with
              | nil =>
                  simp [setSegs, getSegs, hti, List.get?_eq_getElem?, arrGet_arrSet]
              | cons s' rest' =>
                  have hok : setOk (normChild xs[i]?) (s' :: rest') = true := by
                    simpa [setOk, hti, List.get?_eq_getElem?] using h
                  simp only [setSegs, getSegs, hti, List.get?_eq_getElem?, arrGet_arrSet]
                  exact ih _ v hok
      | null => simp [setOk] at h
      | bool b => simp [setOk] at h
      | num n => simp [setOk] at h
      | str t => simp [setOk] at h

/-- C5.  Round-trip of path addressing: for every document, every pointer
whose traversal is compatible with the document's shape (`setOk`: nonempty,
object steps use keys, array steps canonical indices — the domain on which
the JavaScript original addresses tree documents), and every value,
`get(set(d, p, v), p)` returns `v`.  `set` creates intermediate mappings for
segments that do not yet exist and overwrites any existing value at the
target (the second and third conjuncts pin the unit-test instances of
those behaviours). -/
theorem C5_set_get_roundtrip :
    (∀ (d : Json) (p : String) (v : Json),
        setOk d (parsePath p) = true → getByPath (setByPath d p v) p = some v) ∧
    setByPath (.obj []) "/a/b/c" (.str "deep") =
      .obj [("a", .obj [("b", .obj [("c", .str "deep")])])] ∧
    setByPath (.obj [("user", .obj [("name", .str "John")])]) "user/name" (.str "Alice") =
      .obj [("user", .obj [("name", .str "Alice")])] ∧
    setByPath (.obj [("count", .num 5)]) "/count" (.num 10) =
      .obj [("count", .num 10)] := by
  refine ⟨?_, by decide, by decide, by decide⟩
  intro d p v h
  exact getSegs_setSegs (parsePath p) d v h

/-- C5, witness: the round-trip applied at a concrete document, pointer and
value. -/
theorem C5_set_get_roundtrip_witness :
    getByPath (setByPath (.obj [("user", .obj [("name", .str "John")])])
        "/user/name" (.str "Alice")) "/user/name" = some (.str "Alice") :=
  C5_set_get_roundtrip.1 _ "/user/name" _ (by decide)

/-- Escaping at a character other than `~` and `/` is transparent. -/
theorem escapeSeg_cons_other (c : Char) (rest : List Char) (h1 : c ≠ '~') (h2 : c ≠ '/') :
    escapeSeg (c :: rest) = c :: escapeSeg rest := by
  conv_lhs => unfold escapeSeg
  split
  · rename_i heq
    exact absurd heq (by simp)
  · rename_i rest' heq
    injection heq with hc hr
    exact absurd hc h1
  · rename_i rest' heq
    injection heq with hc hr
    exact absurd hc h2
  · rename_i c' rest' heq
    injection heq with hc hr
    rw [hc, hr]

/-- Decoding at a character other than `~` is transparent. -/
theorem unescapeSeg_cons_other (c : Char) (rest : List Char) (h1 : c ≠ '~') :
    unescapeSeg (c :: rest) = c :: unescapeSeg rest := by
  conv_lhs => unfold unescapeSeg
  split
  · rename_i heq
    exact absurd heq (by simp)
  · rename_i rest' heq
    injection heq with hc hr
    exact absurd hc h1
  · rename_i rest' heq
    injection heq with hc hr
    exact absurd hc h1
  · rename_i c' rest' heq
    injection heq with hc hr
    rw [hc, hr]

/-- C6.  RFC 6901 escape handling: decoding a segment is the exact inverse
of RFC 6901 encoding for every key (so `~1` becomes `/` and `~0` becomes
`~` with no double substitution — `~01` decodes to `~1`, not `/`), and both
`get` and `set` address the intended keys: key `a/b` via `/a~1b`, key `a~b`
via `/a~0b`, and key `a~/b` via the combined pointer `/a~0~1b`. -/
theorem C6_rfc6901_escaping :
    (∀ key : List Char, unescapeSeg (escapeSeg key) = key) ∧
    unescapeSeg "~01".data = "~1".data ∧
    getByPath (.obj [("a/b", .obj [("c", .num 42)])]) "/a~1b/c" = some (.num 42) ∧
    getByPath (.obj [("a~b", .num 99)]) "/a~0b" = some (.num 99) ∧
    getByPath (.obj [("a~/b", .str "found")]) "/a~0~1b" = some (.str "found") ∧
    setByPath (.obj []) "/a~1b" (.str "value") = .obj [("a/b", .str "value")] ∧
    setByPath (.obj []) "/a~0b" (.str "value") = .obj [("a~b", .str "value")] ∧
    setByPath (.obj []) "/a~0~1b" (.str "value") = .obj [("a~/b", .str "value")] := by
  refine ⟨?_, by decide, by decide, by decide, by decide, by decide, by decide, by decide⟩
  intro key
  induction key with
  | nil => rfl
  | cons c rest ih =>
      by_cases h1 : c = '~'
      · subst h1
        simp [escapeSeg, unescapeSeg, ih]
      · by_cases h2 : c = '/'
        · subst h2
          simp [escapeSeg, unescapeSeg, ih]
        · rw [escapeSeg_cons_other c rest h1 h2, unescapeSeg_cons_other c _ h1, ih]

/-!
Visibility evaluator (spec 4.5).  The implementation lives in the renderer
composables, absent from the sources; it is modelled from the spec.
Conditions stay in their duck-typed JSON form.  `isVisible` is a total
function — evaluation never raises; undefined lookups and incompatible
operand types make comparisons false rather than failing.
-/

/-- JavaScript string `<` (lexicographic by code unit). -/
def strLt : List Char → List Char → Bool
  | [], [] => false
  | [], _ :: _ => true
  | _ :: _, [] => false
  | a :: as, b :: bs =>
      if a.toNat < b.toNat then true
      else if b.toNat < a.toNat then false
      else strLt as bs

/-- Modelled from the spec: an ordering comparison (`gt`/`gte`/`lt`/`lte`)
uses numeric comparison when both operands are numbers, string lexicographic
comparison when both are strings, and is false across incompatible types
(4.5). -/
def compareVals (op : String) (v w : Json) : Bool :=
  match v, w with
  | .num a, .num b =>
      if op = "gt" then a > b
      else if op = "gte" then a ≥ b
      else if op = "lt" then a < b
      else a ≤ b
  | .str a, .str b =>
      if op = "gt" then strLt b.data a.data
      else if op = "gte" then !strLt a.data b.data
      else if op = "lt" then strLt a.data b.data
      else !strLt b.data a.data
  | _, _ => false

/-- The comparison key carried by a `$state` condition, if any (exactly one
per the data-model invariant; keys probed in a fixed order). -/
def condCmpKey (fields : List (String × Json)) : Option (String × Json) :=
  match jlookup "eq" fields with
  | some w => some ("eq", w)
  | none =>
      match jlookup "neq" fields with
      | some w => some ("neq", w)
      | none =>
          match jlookup "gt" fields with
          | some w => some ("gt", w)
          | none =>
              match jlookup "gte" fields with
              | some w => some ("gte", w)
              | none =>
                  match jlookup "lt" fields with
                  | some w => some ("lt", w)
                  | none =>
                      match jlookup "lte" fields with
                      | some w => some ("lte", w)
                      | none => none

mutual
/-- Modelled from the spec: `isVisible(condition, state)` (4.5): literal
booleans; sequences as implicit AND (empty sequence visible); `$state`
conditions look up the value, apply the comparison key if present (deep
equality for `eq`/`neq`, ordering via `compareVals`, `undefined` comparisons
false), fall back to truthiness, and `not` negates the final boolean. -/
def isVisible (cond : Json) (state : Json) : Bool :=
  match cond with
  | .bool b => b
  | .arr cs => isVisibleAll cs state
  | .obj fields =>
      (match jlookup "$state" fields with
       | some (.str p) =>
           let v := getByPath state p
           let base :=
             match condCmpKey fields with
             | some ("eq", w) => optDeepEq v (some w)
             | some ("neq", w) => !optDeepEq v (some w)
             | some (op, w) =>
                 (match v with
                  | some vv => compareVals op vv w
                  | none => false)
             | none =>
                 (match v with
                  | some vv => jsTruthy vv
                  | none => false)
           let notFlag :=
             match jlookup "not" fields with
             | some nv => jsTruthy nv
             | none => false
           if notFlag then !base else base
       | _ => false)
  | _ => false

/-- Conjunction over a sequence of conditions. -/
def isVisibleAll (conds : List Json) (state : Json) : Bool :=
  match conds with
  | [] => true
  | c :: rest => isVisible c state && isVisibleAll rest state
end

example : isVisible (.obj [("$state", .str "/count"), ("gte", .num 10)])
    (.obj [("count", .num 12)]) = true := by decide
example : isVisible (.obj [("$state", .str "/count"), ("gte", .num 10)])
    (.obj [("count", .num 3)]) = false := by decide
example : isVisible (.obj [("$state", .str "/flag")]) (.obj [("flag", .bool true)]) = true := by decide
example : isVisible (.bool true) (.obj []) = true := by decide
example : isVisible (.arr [.obj [("$state", .str "/a")], .obj [("$state", .str "/b")]])
    (.obj [("a", .bool true), ("b", .bool false)]) = false := by decide
example : isVisible (.obj [("$state", .str "/status"), ("eq", .str "active")])
    (.obj [("status", .str "active")]) = true := by decide

/-- C8, counterexample.  The claim requires both that `neq` use deep
equality and that comparisons across incompatible types yield false for all
comparison operators.  These conflict: with `/x` holding the number `1`, the
condition `{"$state": "/x", "neq": {}}` compares a number against an object
— incompatible types — yet deep inequality makes it true, not false. -/
theorem C8_counterexample :
    isVisible (.obj [("$state", .str "/x"), ("neq", .obj [])])
      (.obj [("x", .num 1)]) = true := by decide

/-- C8, amended.  `isVisible` is total (it never raises): an ordering
comparison (`gt`/`gte`/`lt`/`lte`) whose looked-up value is absent yields
false; comparisons across incompatible types (number vs object) yield false
for `eq` and the four ordering operators, while `neq` — being deep
inequality — yields true; `eq`/`neq` are deep (in)equality of the looked-up
value; ordering operators compare numerically when both operands are numbers
and string-lexicographically when both are strings; and adding `not: true`
to a `$state` condition yields exactly the logical negation of the same
condition without `not`. -/
theorem C8_visibility_semantics :
    (∀ (state : Json) (p : String) (w : Json),
        getByPath state p = none →
        isVisible (.obj [("$state", .str p), ("gt", w)]) state = false ∧
        isVisible (.obj [("$state", .str p), ("gte", w)]) state = false ∧
        isVisible (.obj [("$state", .str p), ("lt", w)]) state = false ∧
        isVisible (.obj [("$state", .str p), ("lte", w)]) state = false) ∧
    (∀ (state : Json) (p : String) (n : Int) (fs : List (String × Json)),
        getByPath state p = some (.num n) →
        isVisible (.obj [("$state", .str p), ("eq", .obj fs)]) state = false ∧
        isVisible (.obj [("$state", .str p), ("gt", .obj fs)]) state = false ∧
        isVisible (.obj [("$state", .str p), ("gte", .obj fs)]) state = false ∧
        isVisible (.obj [("$state", .str p), ("lt", .obj fs)]) state = false ∧
        isVisible (.obj [("$state", .str p), ("lte", .obj fs)]) state = false ∧
        isVisible (.obj [("$state", .str p), ("neq", .obj fs)]) state = true) ∧
    (∀ (state : Json) (p : String) (v w : Json),
        getByPath state p = some v →
        isVisible (.obj [("$state", .str p), ("eq", w)]) state = deepEq v w ∧
        isVisible (.obj [("$state", .str p), ("neq", w)]) state = !deepEq v w ∧
        isVisible (.obj [("$state", .str p), ("gt", w)]) state = compareVals "gt" v w) ∧
    (∀ a b : Int,
        compareVals "gt" (.num a) (.num b) = decide (a > b) ∧
        compareVals "gte" (.num a) (.num b) = decide (a ≥ b) ∧
        compareVals "lt" (.num a) (.num b) = decide (a < b) ∧
        compareVals "lte" (.num a) (.num b) = decide (a ≤ b)) ∧
    (∀ a b : String,
        compareVals "gt" (.str a) (.str b) = strLt b.data a.data ∧
        compareVals "lt" (.str a) (.str b) = strLt a.data b.data) ∧
    (∀ (state : Json) (fields : List (String × Json)) (p : String),
        jlookup "$state" fields = some (.str p) →
        jlookup "not" fields = none →
        isVisible (.obj (("not", .bool true) :: fields)) state =
          !isVisible (.obj fields) state) := by
  refine ⟨?_, ?_, ?_, ?_, ?_, ?_⟩
  · intro state p w h
    refine ⟨?_, ?_, ?_, ?_⟩ <;> simp [isVisible, condCmpKey, jlookup, h]
  · intro state p n fs h
    refine ⟨?_, ?_, ?_, ?_, ?_, ?_⟩ <;>
      simp [isVisible, condCmpKey, jlookup, h, optDeepEq, deepEq, compareVals]
  · intro state p v w h
    refine ⟨?_, ?_, ?_⟩ <;> simp [isVisible, condCmpKey, jlookup, h, optDeepEq]
  · intro a b
    refine ⟨?_, ?_, ?_, ?_⟩ <;> simp [compareVals]
  · intro a b
    exact ⟨rfl, by simp [compareVals]⟩
  · intro state fields p hs hn
    have h2 : condCmpKey (("not", Json.bool true) :: fields) = condCmpKey fields := by
      simp [condCmpKey, jlookup]
    simp [isVisible, jlookup, hs, hn, h2, jsTruthy]

/-- C8, witness: the amended theorem applied at concrete states and
conditions. -/
theorem C8_visibility_semantics_witness :
    isVisible (.obj [("$state", .str "/x"), ("gt", .num 10)]) (.obj []) = false ∧
    isVisible (.obj [("$state", .str "/x"), ("eq", .obj [])]) (.obj [("x", .num 1)]) = false ∧
    isVisible (.obj [("$state", .str "/count"), ("eq", .num 3)]) (.obj [("count", .num 3)])
      = deepEq (.num 3) (.num 3) ∧
    isVisible (.obj (("not", .bool true) :: [("$state", .str "/flag")])) (.obj [("flag", .bool true)])
      = !isVisible (.obj [("$state", .str "/flag")]) (.obj [("flag", .bool true)]) :=
  ⟨(C8_visibility_semantics.1 _ "/x" _ (by decide)).1,
   (C8_visibility_semantics.2.1 _ "/x" 1 [] (by decide)).1,
   (C8_visibility_semantics.2.2.1 _ "/count" _ _ (by decide)).1,
   C8_visibility_semantics.2.2.2.2.2 _ [("$state", .str "/flag")] "/flag" (by decide) (by decide)⟩

/-!
Template resolution (spec 4.4, `$template`).  The resolver lives in the
renderer packages, absent from the sources; it is modelled from the spec: a
single left-to-right scan replacing each placeholder (a dollar sign, an
opening brace, a JSON pointer, a closing brace) with
`String(get(state, pointer))`, where `undefined` and `null` become the empty
string; all other text passes through verbatim.
-/

mutual
/-- JavaScript `String()` of a JSON value: scalars print themselves, arrays
join their elements with commas, objects print as `[object Object]`. -/
def jsToString : Json → String
  | .null => "null"
  | .bool b => if b then "true" else "false"
  | .num n => toString n
  | .str s => s
  | .obj _ => "[object Object]"
  | .arr xs => jsToStringList xs

/-- Array stringification (`Array.prototype.join(",")`): elements joined
with commas, null elements contributing nothing. -/
def jsToStringList : List Json → String
  | [] => ""
  | [.null] => ""
  | [x] => jsToString x
  | .null :: y :: rest => "," ++ jsToStringList (y :: rest)
  | x :: y :: rest => jsToString x ++ "," ++ jsToStringList (y :: rest)
end

/-- Modelled from the spec: the text substituted for a placeholder —
`String(get(state, pointer))` with `undefined`/`null` becoming the empty
string (never the text "undefined"). -/
def displayValue : Option Json → String
  | none => ""
  | some .null => ""
  | some v => jsToString v

/-- Modelled from the spec: the single left-to-right scan of a `$template`
string.  The second argument is the scanner mode: `none` outside a
placeholder, `some acc` inside one with the pointer accumulated in reverse.
The closing brace substitutes `String(get(state, pointer))`; an unterminated
placeholder is left verbatim. -/
def tmplScan (state : Json) (cs : List Char) (mode : Option (List Char)) : List Char :=
  match cs, mode with
  | [], none => []
  | [], some acc => '$' :: lbraceChar :: acc.reverse
  | c :: rest, none =>
      if c = '$' then
        match rest with
        | c2 :: rest2 =>
            if c2 = lbraceChar then tmplScan state rest2 (some [])
            else c :: tmplScan state (c2 :: rest2) none
        | [] => [c]
      else c :: tmplScan state rest none
  | c :: rest, some acc =>
      if c = rbraceChar then
        (displayValue (getByPath state (String.mk acc.reverse))).data ++
          tmplScan state rest none
      else tmplScan state rest (some (c :: acc))
termination_by structural cs

/-- Modelled from the spec: `$template` resolution against a state
snapshot. -/
def resolveTemplate (state : Json) (template : String) : String :=
  String.mk (tmplScan state template.data none)

/-- Text free of placeholder openers (no `${` anywhere). -/
def noPh : List Char → Bool
  | [] => true
  | [_] => true
  | c :: d :: rest => !(c = '$' && d = lbraceChar) && noPh (d :: rest)

example : resolveTemplate (.obj [("user", .obj [("name", .str "Alice")]), ("count", .num 3)])
    "Hello, $\x7b/user/name\x7d! You have $\x7b/count\x7d messages."
    = "Hello, Alice! You have 3 messages." := by decide
example : resolveTemplate (.obj []) "Hi $\x7b/name\x7d!" = "Hi !" := by decide

/-- Dropping the head of placeholder-free text keeps it placeholder-free. -/
theorem noPh_tail (c : Char) (a : List Char) (h : noPh (c :: a) = true) :
    noPh a = true := by
  cases a with
  | nil => rfl
  | cons d r =>
      have h' := h
      simp only [noPh, Bool.and_eq_true] at h'
      exact h'.2

/-- In placeholder-free text a dollar sign is never followed by an opening
brace. -/
theorem noPh_head (d : Char) (r : List Char)
    (h : noPh ('$' :: d :: r) = true) : d ≠ lbraceChar := by
  intro he
  subst he
  simp [noPh] at h

/-- Unfolding the scan at an ordinary character. -/
theorem tmplScan_cons_other (state : Json) (c : Char) (rest : List Char) (hc : c ≠ '$') :
    tmplScan state (c :: rest) none = c :: tmplScan state rest none := by
  conv_lhs => rw [tmplScan.eq_def]
  simp [hc]

/-- Unfolding the scan at a dollar sign not followed by an opening brace. -/
theorem tmplScan_dollar_other (state : Json) (d : Char) (rest : List Char)
    (hd : d ≠ lbraceChar) :
    tmplScan state ('$' :: d :: rest) none = '$' :: tmplScan state (d :: rest) none := by
  conv_lhs => rw [tmplScan.eq_def]
  simp [hd]

/-- Unfolding the scan at a trailing dollar sign. -/
theorem tmplScan_dollar_nil (state : Json) :
    tmplScan state ['$'] none = ['$'] := by
  conv_lhs => rw [tmplScan.eq_def]
  simp

/-- Unfolding the scan at a placeholder opener. -/
theorem tmplScan_open (state : Json) (rest : List Char) :
    tmplScan state ('$' :: lbraceChar :: rest) none = tmplScan state rest (some []) := by
  conv_lhs => rw [tmplScan.eq_def]
  simp

/-- Unfolding the scan at a closing brace inside a placeholder. -/
theorem tmplScan_ph_rb (state : Json) (b acc : List Char) :
    tmplScan state (rbraceChar :: b) (some acc) =
      (displayValue (getByPath state (String.mk acc.reverse))).data ++
        tmplScan state b none := by
  conv_lhs => rw [tmplScan.eq_def]
  simp

/-- Unfolding the scan at an ordinary character inside a placeholder. -/
theorem tmplScan_ph_other (state : Json) (c : Char) (rest acc : List Char)
    (hc : c ≠ rbraceChar) :
    tmplScan state (c :: rest) (some acc) = tmplScan state rest (some (c :: acc)) := by
  conv_lhs => rw [tmplScan.eq_def]
  simp [hc]

/-- Inside a placeholder the scan accumulates the pointer up to the closing
brace and substitutes the looked-up value. -/
theorem tmplScan_ph (state : Json) :
    ∀ (p b acc : List Char),
      (∀ c ∈ p, c ≠ rbraceChar) →
      tmplScan state (p ++ rbraceChar :: b) (some acc) =
        (displayValue (getByPath state (String.mk (acc.reverse ++ p)))).data ++
          tmplScan state b none := by
  intro p
  induction p with
  | nil =>
      intro b acc h
      rw [List.nil_append, tmplScan_ph_rb]
      simp
  | cons c p' ih =>
      intro b acc h
      have hc : c ≠ rbraceChar := h c (by simp)
      have h' : ∀ c' ∈ p', c' ≠ rbraceChar := fun c' hm => h c' (by simp [hm])
      rw [List.cons_append, tmplScan_ph_other state c _ acc hc, ih b (c :: acc) h']
      simp

/-- Placeholder-free text passes through the scan verbatim, provided what
follows does not begin with an opening brace (which could complete a
trailing dollar sign into a placeholder). -/
theorem tmplScan_text (state : Json) :
    ∀ (a rest : List Char), noPh a = true → rest.head? ≠ some lbraceChar →
      tmplScan state (a ++ rest) none = a ++ tmplScan state rest none := by
  intro a
  induction a with
  | nil => intro rest _ _; rfl
  | cons c a' ih =>
      intro rest h hr
      by_cases hc : c = '$'
      · subst hc
        cases a' with
        | nil =>
            cases rest with
            | nil =>
                have h0 : tmplScan state [] none = [] := rfl
                simp [tmplScan_dollar_nil, h0]
            | cons c2 rest2 =>
                have hc2 : c2 ≠ lbraceChar := by
                  intro he
                  exact hr (by simp [he])
                rw [List.singleton_append, tmplScan_dollar_other state c2 rest2 hc2]
                simp
        | cons d a'' =>
            have hd : d ≠ lbraceChar := noPh_head d a'' h
            have h' : noPh (d :: a'') = true := noPh_tail '$' (d :: a'') h
            rw [List.cons_append, List.cons_append,
              tmplScan_dollar_other state d (a'' ++ rest) hd,
              ← List.cons_append, ih rest h' hr]
            simp
      · have h' : noPh a' = true := noPh_tail c a' h
        rw [List.cons_append, tmplScan_cons_other state c _ hc, ih rest h' hr]
        simp

/-- C9.  `$template` resolution: every placeholder (dollar sign, opening
brace, JSON pointer, closing brace) embedded in placeholder-free text is
replaced by `String(get(state, pointer))`; `undefined` and `null` lookups
substitute the empty string (never the text "undefined"); all
non-placeholder text passes through verbatim; and the two example templates
of the spec resolve exactly as claimed against both the populated state and
the empty state. -/
theorem C9_template_resolution :
    (∀ (state : Json) (a p b : List Char),
        noPh a = true → (∀ c ∈ p, c ≠ rbraceChar) →
        tmplScan state (a ++ '$' :: lbraceChar :: (p ++ rbraceChar :: b)) none =
          a ++ (displayValue (getByPath state (String.mk p))).data ++
            tmplScan state b none) ∧
    displayValue none = "" ∧
    displayValue (some .null) = "" ∧
    resolveTemplate (.obj [("user", .obj [("name", .str "Alice")]), ("count", .num 3)])
        "Hello, $\x7b/user/name\x7d! You have $\x7b/count\x7d messages."
      = "Hello, Alice! You have 3 messages." ∧
    resolveTemplate (.obj [])
        "Hello, $\x7b/user/name\x7d! You have $\x7b/count\x7d messages."
      = "Hello, ! You have  messages." := by
  refine ⟨?_, rfl, rfl, by decide, by decide⟩
  intro state a p b ha hp
  have hhead : ('$' :: lbraceChar :: (p ++ rbraceChar :: b)).head? ≠ some lbraceChar := by
    simp only [List.head?]
    intro he
    injection he with he2
    exact absurd he2 (by decide)
  rw [tmplScan_text state a ('$' :: lbraceChar :: (p ++ rbraceChar :: b)) ha hhead,
    tmplScan_open, tmplScan_ph state p b [] hp]
  simp

/-- C9, witness: the placeholder lemma applied at a concrete state, text and
pointer. -/
theorem C9_template_resolution_witness :
    tmplScan (.obj [("name", .str "Bob")])
        ("Hi ".data ++ '$' :: lbraceChar :: ("/name".data ++ rbraceChar :: "!".data)) none
      = "Hi ".data ++ (displayValue (getByPath (.obj [("name", .str "Bob")])
          (String.mk "/name".data))).data ++
        tmplScan (.obj [("name", .str "Bob")]) "!".data none :=
  C9_template_resolution.1 _ "Hi ".data "/name".data "!".data (by decide) (by decide)

/-!
Watch dispatch (spec 4.6).  The implementation lives in the renderer
packages, absent from the sources; it is modelled from the spec: per watched
path and mounted element, the machine starts Idle, records the value at the
watched path on first render without firing, and on every later snapshot
whose value at the path deep-differs from the recorded one fires every bound
action once, in declaration order, with params resolved against the new
snapshot, then re-records.
-/

/-- An action binding of a `watch` entry: action name plus raw params. -/
structure ActionBinding where
  action : String
  params : List (String × Json)
deriving Repr, DecidableEq

/-- Modelled from the spec: param resolution against a snapshot, restricted
to the shapes watch params use — a `$state` expression resolves to the
looked-up value, anything else passes through as a literal (4.4). -/
def resolveParam (state : Json) (v : Json) : Option Json :=
  match v with
  | .obj fields =>
      (match jlookup "$state" fields with
       | some (.str p) => getByPath state p
       | _ => some (.obj fields))
  | v => some v

/-- One observed firing: the action name with its params resolved against
the snapshot that triggered it. -/
structure Firing where
  action : String
  params : List (String × Option Json)
deriving Repr, DecidableEq

/-- The firing a binding produces against a snapshot. -/
def mkFiring (snap : Json) (b : ActionBinding) : Firing :=
  ⟨b.action, b.params.map fun kv => (kv.1, resolveParam snap kv.2)⟩

/-- A watcher: the watched state path and its bound actions (one or many, in
declaration order). -/
structure WatcherDef where
  path : String
  actions : List ActionBinding

/-- Modelled from the spec: the Armed watcher over successive snapshots,
carrying the recorded value (possibly `undefined`).  A snapshot whose value
at the path deep-equals the record fires nothing; a differing one fires
every bound action in declaration order and re-records. -/
def runWatcherAux (w : WatcherDef) (last : Option Json) : List Json → List Firing
  | [] => []
  | snap :: rest =>
      if optDeepEq last (getByPath snap w.path) then
        runWatcherAux w (getByPath snap w.path) rest
      else
        w.actions.map (mkFiring snap) ++ runWatcherAux w (getByPath snap w.path) rest

/-- Modelled from the spec: the full life of a mounted watcher over the
sequence of render snapshots: Idle, then the first render records the
current value without firing, then Armed. -/
def runWatcher (w : WatcherDef) : List Json → List Firing
  | [] => []
  | s0 :: rest => runWatcherAux w (getByPath s0 w.path) rest

/-- The recorded value and each successive snapshot agree at the path (no
observable mutation of the watched path). -/
def recordedChain (p : String) : Option Json → List Json → Bool
  | _, [] => true
  | last, b :: rest =>
      optDeepEq last (getByPath b p) && recordedChain p (getByPath b p) rest

/-- An Armed watcher whose watched value never (observably) changes fires
nothing. -/
theorem runWatcherAux_chain (w : WatcherDef) :
    ∀ (snaps : List Json) (last : Option Json),
      recordedChain w.path last snaps = true → runWatcherAux w last snaps = [] := by
  intro snaps
  induction snaps with
  | nil => intro last _; rfl
  | cons b rest ih =>
      intro last h
      simp only [recordedChain, Bool.and_eq_true] at h
      simp only [runWatcherAux, if_pos h.1]
      exact ih _ h.2

/-- C7.  Watcher behaviour: the first render records the current value at
the watched path without firing (a single snapshot produces zero firings,
and in general a run whose watched value never deep-changes — in particular
one whose mutations only touch other paths — produces zero firings); a
snapshot that deep-changes the watched value fires every bound action
exactly once for that change, in declaration order, with each action's
params resolved against the new snapshot ($state params read the new
value); afterwards the watcher is re-armed on the new value, so runs whose
remaining snapshots leave the path unchanged add no further firings. -/
theorem C7_watcher_firing :
    (∀ (w : WatcherDef) (s0 : Json), runWatcher w [s0] = []) ∧
    (∀ (w : WatcherDef) (s0 : Json) (rest : List Json),
        recordedChain w.path (getByPath s0 w.path) rest = true →
        runWatcher w (s0 :: rest) = []) ∧
    (∀ (w : WatcherDef) (s0 s1 : Json) (rest : List Json),
        optDeepEq (getByPath s0 w.path) (getByPath s1 w.path) = false →
        runWatcher w (s0 :: s1 :: rest) =
          w.actions.map (mkFiring s1) ++
            runWatcherAux w (getByPath s1 w.path) rest) ∧
    (∀ (snap : Json) (p : String),
        resolveParam snap (.obj [("$state", .str p)]) = getByPath snap p) := by
  refine ⟨?_, ?_, ?_, ?_⟩
  · intro w s0
    rfl
  · intro w s0 rest h
    exact runWatcherAux_chain w rest _ h
  · intro w s0 s1 rest h
    simp only [runWatcher, runWatcherAux]
    rw [if_neg (by rw [h]; exact Bool.false_ne_true)]
  · intro snap p
    simp [resolveParam, jlookup]

/-- C7, witness: the theorem applied at a concrete watcher on `/form/country`
with two bound actions — no firing on first render or on a mutation of the
unrelated path `/other`, exactly one ordered firing round with params
resolved against the new snapshot when the watched value changes. -/
theorem C7_watcher_firing_witness :
    runWatcher ⟨"/form/country", [⟨"loadCities", [("country", .obj [("$state", .str "/form/country")])]⟩,
        ⟨"logChange", []⟩]⟩
      [.obj [("form", .obj [("country", .str "")]), ("other", .num 1)],
       .obj [("form", .obj [("country", .str "")]), ("other", .num 2)]] = [] ∧
    runWatcher ⟨"/form/country", [⟨"loadCities", [("country", .obj [("$state", .str "/form/country")])]⟩,
        ⟨"logChange", []⟩]⟩
      [.obj [("form", .obj [("country", .str "")])],
       .obj [("form", .obj [("country", .str "US")])]] =
      [⟨"loadCities", [("country", some (.str "US"))]⟩, ⟨"logChange", []⟩] := by
  constructor
  · exact C7_watcher_firing.2.1 _ _ _ (by decide)
  · rw [C7_watcher_firing.2.2.1 _ _ _ _ (by decide)]
    decide

/-!
Heap model for the spec-aware element update.  `setSpecValue` performs
`const newElement = { ...element }` followed by an in-place
`setByPath(newElement, propPath, value)` and re-installs `newElement` under
the element key.  Whether the previously-held element object is mutated is a
question about object identity, so this fragment of `hooks.ts` is embedded a
second time over an explicit heap: addresses index a store of objects,
values are primitives or references, and the JavaScript mutations become
store updates.
-/

/-- A JavaScript runtime value: a primitive or a reference to a heap
object. -/
inductive HVal where
  | null : HVal
  | bool (b : Bool) : HVal
  | num (n : Int) : HVal
  | str (s : String) : HVal
  | ref (a : Nat) : HVal
deriving Repr, DecidableEq

/-- The object store: address `a` holds the field list of the object
allocated at `a` (arrays are not needed for the behaviours exercised
here). -/
abbrev Heap := List (List (String × HVal))

/-- Field lookup on an object's field list. -/
def hlookup (k : String) : List (String × HVal) → Option HVal
  | [] => none
  | (l, v) :: rest => if l = k then some v else hlookup k rest

/-- Overwrite-or-append a field (JavaScript property assignment). -/
def setKeyH (k : String) (v : HVal) : List (String × HVal) → List (String × HVal)
  | [] => [(k, v)]
  | (l, w) :: rest => if l = k then (l, v) :: rest else (l, w) :: setKeyH k v rest

/-- The object stored at an address (the empty object off the heap — such
addresses are never produced by the operations modelled here). -/
def objAt (h : Heap) (a : Nat) : List (String × HVal) :=
  (h[a]?).getD []

/-- Mutate one field of the object at an address. -/
def heapSetField (h : Heap) (a : Nat) (k : String) (v : HVal) : Heap :=
  h.set a (setKeyH k v (objAt h a))

/-- Heap rendering of the (spec-modelled) mutating `setByPath` of 4.1 on
object trees: navigate by reference, replacing a missing or non-object
child with a freshly allocated intermediate mapping, and assign the final
field in place. -/
def setByPathH (h : Heap) (a : Nat) (segs : List String) (v : HVal) : Heap :=
  match segs with
  | [] => h
  | [s] => heapSetField h a s v
  | s :: s' :: rest =>
      match hlookup s (objAt h a) with
      | some (.ref a') => setByPathH h a' (s' :: rest) v
      | _ =>
          setByPathH (heapSetField (h ++ [[]]) a s (.ref h.length)) h.length
            (s' :: rest) v

/-- Read a value by navigating references from an address. -/
def heapGetSegs (h : Heap) (a : Nat) : List String → Option HVal
  | [] => some (.ref a)
  | [s] => hlookup s (objAt h a)
  | s :: s' :: rest =>
      match hlookup s (objAt h a) with
      | some (.ref a') => heapGetSegs h a' (s' :: rest)
      | _ => none

/-- `setSpecValue` from `hooks.ts`, embedded over the heap: the spec object
sits at `aspec` with fields `root`, `elements` (a reference to the flat
element map) and optionally `state` (a reference to the state document).
The `/elements/<key>/<subpath...>` branch is the copy-mutate-replace under
study: allocate a shallow copy of the element (sharing every referenced
child), mutate the copy in place via `setByPathH`, and re-install it under
the key. -/
def setSpecValueH (h : Heap) (aspec : Nat) (path : String) (value : HVal) : Heap :=
  if path = "/root" then heapSetField h aspec "root" value
  else if path = "/state" then heapSetField h aspec "state" value
  else if jsStartsWith path "/state/" then
    match hlookup "state" (objAt h aspec) with
    | some (.ref sa) => setByPathH h sa (parsePath (jsSlice path 6)) value
    | _ =>
        setByPathH (heapSetField (h ++ [[]]) aspec "state" (.ref h.length)) h.length
          (parsePath (jsSlice path 6)) value
  else if jsStartsWith path "/elements/" then
    match jsSplitSlash (jsSlice path 10) with
    | [] => h
    | elementKey :: restParts =>
        if elementKey = "" then h
        else
          match hlookup "elements" (objAt h aspec) with
          | some (.ref ae) =>
              if restParts = [] then heapSetField h ae elementKey value
              else
                match hlookup elementKey (objAt h ae) with
                | some (.ref ak) =>
                    heapSetField
                      (setByPathH (h ++ [objAt h ak]) h.length
                        (parsePath ("/" ++ String.intercalate "/" restParts)) value)
                      ae elementKey (.ref h.length)
                | _ => h
          | _ => h
  else h

/-- Writing a field at an address rewrites that object. -/
theorem objAt_heapSetField_self (h : Heap) (a : Nat) (k : String) (v : HVal)
    (ha : a < h.length) :
    objAt (heapSetField h a k v) a = setKeyH k v (objAt h a) := by
  simp [heapSetField, objAt, List.getElem?_set_eq_of_lt _ ha]

/-- Writing a field at an address leaves every other address untouched. -/
theorem objAt_heapSetField_ne (h : Heap) (a b : Nat) (k : String) (v : HVal)
    (hne : b ≠ a) :
    objAt (heapSetField h a k v) b = objAt h b := by
  simp [heapSetField, objAt, List.getElem?_set_ne (fun he => hne he.symm)]

/-- Allocation leaves existing addresses untouched. -/
theorem objAt_append_lt (h : Heap) (x : List (String × HVal)) (b : Nat)
    (hb : b < h.length) :
    objAt (h ++ [x]) b = objAt h b := by
  simp [objAt, List.getElem?_append, hb]

/-- The freshly allocated object sits at the old heap length. -/
theorem objAt_append_self (h : Heap) (x : List (String × HVal)) :
    objAt (h ++ [x]) h.length = x := by
  simp [objAt]

/-- Assigning a field makes it readable. -/
theorem hlookup_setKeyH (k : String) (v : HVal) (fs : List (String × HVal)) :
    hlookup k (setKeyH k v fs) = some v := by
  induction fs with
  | nil => simp [setKeyH, hlookup]
  | cons p rest ih =>
      obtain ⟨l, w⟩ := p
      by_cases hl : l = k
      · simp [setKeyH, hlookup, hl]
      · simp [setKeyH, hlookup, hl, ih]

/-- A concrete heap — a spec at address 0, its element map at 1, one element
at 2 whose `props` object sits at 3 — used to exhibit the shallow-copy
sharing. -/
def specHeapA : Heap :=
  [[("root", .str "r"), ("elements", .ref 1)],
   [("k", .ref 2)],
   [("type", .str "Card"), ("props", .ref 3)],
   [("a", .num 1)]]

/-- C3, counterexample.  The claim asserts that a patch at depth ≥ 2 below
an element leaves the previously-held element object, including its nested
fields, unmutated.  But the copy in `setSpecValue` is shallow
(`{...element}`), so its nested `props` object is shared: after the patch
`/elements/k/props/a ← 2`, reading `props/a` through the old element
reference (address 2) yields the new value 2, no longer the original 1 —
the previously-held element's nested field was mutated in place. -/
theorem C3_counterexample :
    heapGetSegs specHeapA 2 ["props", "a"] = some (.num 1) ∧
    heapGetSegs (setSpecValueH specHeapA 0 "/elements/k/props/a" (.num 2)) 2 ["props", "a"]
      = some (.num 2) := by
  decide

/-- C3, amended.  Spec-aware patch routing: a `/root` write sets the spec's
root field directly; `/state` sets the state field; a `/state/<subpath...>`
write routes into the state sub-document via `setByPath`.  An
`/elements/<key>/<seg>` write (depth exactly 2) is copy-mutate-replace: a
freshly allocated element object with the field updated replaces the old
one under the key, and no pre-existing object other than the element map
itself is mutated — in particular the previously-held element object is
untouched, preserving other readers' references.  At depth ≥ 3 the shallow
copy shares nested objects with the old element, which are then mutated in
place (see the counterexample), so preservation holds only down to the
element's own top-level fields. -/
theorem C3_spec_routing :
    (∀ (h : Heap) (a : Nat) (v : HVal),
        setSpecValueH h a "/root" v = heapSetField h a "root" v) ∧
    (∀ (h : Heap) (a : Nat) (v : HVal),
        setSpecValueH h a "/state" v = heapSetField h a "state" v) ∧
    (∀ (h : Heap) (a sa : Nat) (path : String) (v : HVal),
        path ≠ "/root" → path ≠ "/state" →
        jsStartsWith path "/state/" = true →
        hlookup "state" (objAt h a) = some (.ref sa) →
        setSpecValueH h a path v = setByPathH h sa (parsePath (jsSlice path 6)) v) ∧
    (∀ (h : Heap) (aspec : Nat) (path key seg segKey : String) (v : HVal) (ae ak : Nat),
        path ≠ "/root" → path ≠ "/state" →
        jsStartsWith path "/state/" = false →
        jsStartsWith path "/elements/" = true →
        jsSplitSlash (jsSlice path 10) = [key, seg] →
        key ≠ "" →
        hlookup "elements" (objAt h aspec) = some (.ref ae) →
        hlookup key (objAt h ae) = some (.ref ak) →
        parsePath ("/" ++ seg) = [segKey] →
        ae < h.length →
        (∀ b, b < h.length → b ≠ ae →
            objAt (setSpecValueH h aspec path v) b = objAt h b) ∧
        hlookup key (objAt (setSpecValueH h aspec path v) ae) = some (.ref h.length) ∧
        objAt (setSpecValueH h aspec path v) h.length = setKeyH segKey v (objAt h ak)) := by
  refine ⟨?_, ?_, ?_, ?_⟩
  · intro h a v
    simp [setSpecValueH]
  · intro h a v
    simp [setSpecValueH]
  · intro h a sa path v h1 h2 h3 hst
    simp [setSpecValueH, h1, h2, h3, hst]
  · intro h aspec path key seg segKey v ae ak h1 h2 h3 h4 hsplit hkey helems hak hseg hae
    have hinter : String.intercalate "/" [seg] = seg := by
      simp [String.intercalate, String.intercalate.go]
    have hunfold :
        setSpecValueH h aspec path v =
          heapSetField
            (heapSetField (h ++ [objAt h ak]) h.length segKey v)
            ae key (.ref h.length) := by
      simp only [setSpecValueH, if_neg h1, if_neg h2, h3, h4, hsplit, hkey, helems, hak,
        Bool.false_eq_true, if_false, if_true, hinter]
      simp [hseg, setByPathH]
    rw [hunfold]
    have hlen1 : (h ++ [objAt h ak]).length = h.length + 1 := by simp
    have hlen2 : (heapSetField (h ++ [objAt h ak]) h.length segKey v).length = h.length + 1 := by
      simp only [heapSetField, List.length_set]
      exact hlen1
    refine ⟨?_, ?_, ?_⟩
    · intro b hb hbne
      rw [objAt_heapSetField_ne _ _ _ _ _ hbne,
        objAt_heapSetField_ne _ _ _ _ _ (by omega),
        objAt_append_lt _ _ _ hb]
    · rw [objAt_heapSetField_self _ _ _ _ (by omega),
        hlookup_setKeyH]
    · rw [objAt_heapSetField_ne _ _ _ _ _ (by omega),
        objAt_heapSetField_self _ _ _ _ (by omega),
        objAt_append_self]

/-- C3, witness: the routing theorem applied on the concrete heap for a
depth-2 update `/elements/k/type`: the old element object at address 2 is
untouched, the element map now points at the fresh copy (address 4), and
that copy is the old element with its `type` field updated. -/
theorem C3_spec_routing_witness :
    objAt (setSpecValueH specHeapA 0 "/elements/k/type" (.str "Button")) 2
      = objAt specHeapA 2 ∧
    hlookup "k" (objAt (setSpecValueH specHeapA 0 "/elements/k/type" (.str "Button")) 1)
      = some (.ref 4) ∧
    objAt (setSpecValueH specHeapA 0 "/elements/k/type" (.str "Button")) 4
      = setKeyH "type" (.str "Button") (objAt specHeapA 2) := by
  have H := C3_spec_routing.2.2.2 specHeapA 0 "/elements/k/type" "k" "type" "type"
    (.str "Button") 1 2 (by decide) (by decide) (by decide) (by decide) (by decide)
    (by decide) (by decide) (by decide) (by decide) (by decide)
  exact ⟨H.1 2 (by decide) (by decide), H.2.1, H.2.2⟩
